import Mathlib

/-!
Verification development for TodoTracker (src/todo.py).

The program's line-oriented todo grammar, log parser, mtime-based parse
cache and aggregation functions are embedded shallowly: Python strings
become `List Char`, Python `int` becomes `Int`/`Nat` (Python integers are
unbounded), exceptions become `Except`/`Option`, and the insertion-ordered
Python `dict` becomes an association list.
-/

namespace TodoTracker

/-! ## Python string primitives

`pyIsSpace` is Python's whitespace class restricted to the ASCII range
(the characters `str.split()`/`str.strip()` treat as whitespace). -/

def pyIsSpace (c : Char) : Bool :=
  c = ' ' || c = '\t' || c = '\n' || c = '\r' || c = '\x0b' || c = '\x0c'

/-- `pfx s l` : does `l` start with `s`? -/
def pfx : List Char → List Char → Bool
  | [], _ => true
  | _ :: _, [] => false
  | a :: as, b :: bs => a = b && pfx as bs

/-- `hasSeq sep l` : does `sep` occur in `l` as a contiguous run
(Python `sep in l`)? -/
def hasSeq (sep : List Char) : List Char → Bool
  | [] => sep.isEmpty
  | c :: rest => pfx sep (c :: rest) || hasSeq sep rest

/-- Python `str.lstrip()` (no argument: strip whitespace on the left). -/
def pyLstrip (l : List Char) : List Char := l.dropWhile pyIsSpace

/-- Python `str.rstrip()`. -/
def pyRstrip (l : List Char) : List Char := (l.reverse.dropWhile pyIsSpace).reverse

/-- Python `str.strip()`. -/
def pyStrip (l : List Char) : List Char := pyLstrip (pyRstrip l)

/-- Helper for `pyWords`: `cur` is the word currently being read, in
reverse. -/
def pyWordsGo : Option (List Char) → List Char → List (List Char)
  | none, [] => []
  | some w, [] => [w.reverse]
  | none, c :: rest =>
    if pyIsSpace c then pyWordsGo none rest else pyWordsGo (some [c]) rest
  | some w, c :: rest =>
    if pyIsSpace c then w.reverse :: pyWordsGo none rest
    else pyWordsGo (some (c :: w)) rest

/-- Python `str.split()` with no argument: maximal runs of non-whitespace. -/
def pyWords (l : List Char) : List (List Char) := pyWordsGo none l

/-- Python `str.split(sep, 1)` for a non-empty `sep`, as used on lines 150
and 155 of src/todo.py through `spl[0], spl[1]`: `some (before, after)` at
the first occurrence of `sep`, `none` when `sep` does not occur (in which
case Python's `spl[1]` raises `IndexError`). -/
def splitFirst (sep : List Char) : List Char → Option (List Char × List Char)
  | [] => none
  | c :: rest =>
    if pfx sep (c :: rest) then some ([], (c :: rest).drop sep.length)
    else match splitFirst sep rest with
      | some (a, b) => some (c :: a, b)
      | none => none

/-- The decimal digit characters. -/
def digitChar : Nat → Char
  | 0 => '0' | 1 => '1' | 2 => '2' | 3 => '3' | 4 => '4'
  | 5 => '5' | 6 => '6' | 7 => '7' | 8 => '8' | 9 => '9'
  | _ => '*'

/-- Decimal digits of `n`, most significant first (Python `str(n)` for
`n ≥ 0`). -/
def natDigits (n : Nat) : List Char :=
  if h : n < 10 then [digitChar n]
  else natDigits (n / 10) ++ [digitChar (n % 10)]
termination_by n
decreasing_by omega

/-- Python `str(n)` for an `int`. -/
def intRepr (n : Int) : List Char :=
  if n < 0 then '-' :: natDigits (-n).toNat else natDigits n.toNat

/-- Accumulating parse of a Python decimal digit run: digits, with single
underscores allowed between digits (Python `int` accepts `1_000`). -/
def pyDigitsAux (acc : Nat) : List Char → Option Nat
  | [] => some acc
  | c :: rest =>
    if c.isDigit then pyDigitsAux (acc * 10 + (c.toNat - 48)) rest
    else if c = '_' then
      match rest with
      | [] => none
      | d :: rest2 =>
        if d.isDigit then pyDigitsAux (acc * 10 + (d.toNat - 48)) rest2 else none
    else none

/-- A Python digit run: non-empty, starting with a digit. -/
def pyDigits : List Char → Option Nat
  | [] => none
  | c :: rest => if c.isDigit then pyDigitsAux (c.toNat - 48) rest else none

/-- Python `int(s)`: optional surrounding whitespace, optional sign, then a
digit run. `none` models `ValueError`. -/
def pyInt (s : List Char) : Option Int :=
  match pyStrip s with
  | '-' :: rest => (pyDigits rest).map (fun k => -(Int.ofNat k))
  | '+' :: rest => (pyDigits rest).map (fun k => Int.ofNat k)
  | t => (pyDigits t).map (fun k => Int.ofNat k)

/-! ## Item model — `TodoItem`, src/todo.py lines 26-65 -/

structure TodoItem where
  name : List Char
  duration : Int
  finished : Bool
  tag : List Char
  deriving Repr, DecidableEq

/-- `TodoItem.time` (line 34): the item's contribution to completed time. -/
def TodoItem.time (t : TodoItem) : Int := if t.finished then t.duration else 0

/-- `TodoItem.is_done` (line 37). -/
def TodoItem.is_done (t : TodoItem) : Bool := t.finished

/-- `TodoItem.__str__` (lines 54-62): `"DONE {name} ({duration}m) {tag_str}"`
when finished, without the leading `DONE ` otherwise; `tag_str` is
`"%" + tag` when the tag is non-empty and `""` otherwise. -/
def todoStr (t : TodoItem) : List Char :=
  let tagStr : List Char := if t.tag = [] then [] else '%' :: t.tag
  if t.finished then
    ("DONE ".toList) ++ t.name ++ (" (".toList) ++ intRepr t.duration ++
      ("m) ".toList) ++ tagStr
  else
    t.name ++ (" (".toList) ++ intRepr t.duration ++ ("m) ".toList) ++ tagStr

/-! ## Grammar codec — src/todo.py lines 108-168 -/

/-- The exceptions the parsing helpers raise: `skip_char`'s two messages
(lines 110 and 112), `IndexError` from `spl[1]` / `time_str[-1]`,
`ValueError` from `int`, and the `assert` in `parse_time` (line 133). -/
inductive ParseErr where
  | expectedEol (c : Char)
  | expectedGot (c got : Char)
  | indexErr
  | valueErr
  | timeSuffix
  deriving Repr, DecidableEq

instance {ε α : Type} [DecidableEq ε] [DecidableEq α] :
    DecidableEq (Except ε α) := fun x y =>
  match x, y with
  | .ok a, .ok b =>
    if h : a = b then .isTrue (congrArg Except.ok h)
    else .isFalse (fun hc => h (Except.ok.inj hc))
  | .error a, .error b =>
    if h : a = b then .isTrue (congrArg Except.error h)
    else .isFalse (fun hc => h (Except.error.inj hc))
  | .ok _, .error _ => .isFalse (fun hc => Except.noConfusion hc)
  | .error _, .ok _ => .isFalse (fun hc => Except.noConfusion hc)

/-- `skip_char` (lines 108-114). -/
def skip_char (c : Char) (line : List Char) : Except ParseErr (List Char) :=
  match line with
  | [] => .error (.expectedEol c)
  | x :: rest => if x = c then .ok rest else .error (.expectedGot c x)

/-- `skip_string` (lines 116-120). -/
def skip_string (s : List Char) (line : List Char) : Except ParseErr (List Char) :=
  match s with
  | [] => .ok line
  | c :: s2 =>
    match skip_char c line with
    | .ok l2 => skip_string s2 l2
    | .error e => .error e

/-- `skip_whitespace` (lines 122-130): drop the leading whitespace run. -/
def skip_whitespace (line : List Char) : List Char := line.dropWhile pyIsSpace

/-- `parse_time` (lines 132-134): `time_str[-1]` must be `m` (the
`assert`), the rest is fed to `int`; on an empty string `time_str[-1]`
itself raises `IndexError`. -/
def parse_time (ts : List Char) : Except ParseErr Int :=
  match ts.getLast? with
  | none => .error .indexErr
  | some c =>
    if c = 'm' then
      match pyInt ts.dropLast with
      | some n => .ok n
      | none => .error .valueErr
    else .error .timeSuffix

/-- `parse_todo_line` (lines 137-168). The `try: skip_string('DONE', ...)`
block leaves `line` unchanged when the skip fails. -/
def parse_todo_line (line0 : List Char) : Except ParseErr TodoItem := do
  let line1 ← skip_char '#' line0
  let line2 := skip_whitespace line1
  let (line3, done) :=
    match skip_string ("DONE".toList) line2 with
    | .ok l => (l, true)
    | .error _ => (line2, false)
  let line4 := skip_whitespace line3
  match splitFirst (" (".toList) line4 with
  | none => .error .indexErr
  | some (rawName, line5) =>
    let todoName := pyRstrip rawName
    match splitFirst (")".toList) line5 with
    | none => .error .indexErr
    | some (timeStr, line6) => do
      let dur ← parse_time timeStr
      let line7 := skip_whitespace line6
      if line7.length > 0 then do
        let line8 ← skip_char '%' line7
        pure { name := todoName, duration := dur, finished := done,
               tag := pyStrip line8 }
      else
        pure { name := todoName, duration := dur, finished := done, tag := [] }

/-! ## Log parser — `read_todo_lines`, src/todo.py lines 171-212 -/

/-- The loop of `read_todo_lines`, carrying the `in_comment` flag
(initially false). A line is classified by `line.strip().split()`:
no tokens → skip; first token `###` → toggle the flag; flag set → skip;
first token `#` → `parse_todo_line(line)` on the original line; anything
else → skip. A parse failure propagates out of the whole loop. -/
def read_todo_go (inComment : Bool) : List (List Char) → Except ParseErr (List TodoItem)
  | [] => .ok []
  | line :: rest =>
    match pyWords (pyStrip line) with
    | [] => read_todo_go inComment rest
    | tok :: _ =>
      if tok = "###".toList then read_todo_go (!inComment) rest
      else if inComment then read_todo_go inComment rest
      else if tok = "#".toList then
        match parse_todo_line line with
        | .error e => .error e
        | .ok item =>
          match read_todo_go inComment rest with
          | .error e => .error e
          | .ok items => .ok (item :: items)
      else read_todo_go inComment rest

/-- `read_todo_lines` (lines 171-212). -/
def read_todo_lines (lines : List (List Char)) : Except ParseErr (List TodoItem) :=
  read_todo_go false lines

/-! ## Serialization and the day file — src/todo.py lines 223-240 -/

/-- Python `str.rjust(n)` with spaces. -/
def rjust (n : Nat) (l : List Char) : List Char :=
  List.replicate (n - l.length) ' ' ++ l

/-- The loop of `serialize_todos` with the running `enumerate` index:
`"({idx}) ".rjust(5)` is prepended only when `repl` is true, then
`"# {todo}\n"`. -/
def serialize_go (repl : Bool) (idx : Nat) : List TodoItem → List Char
  | [] => []
  | t :: rest =>
    (if repl then rjust 5 ('(' :: natDigits idx ++ (") ".toList)) else []) ++
      ("# ".toList) ++ todoStr t ++ ['\n'] ++ serialize_go repl (idx + 1) rest

/-- `serialize_todos` (lines 232-240); `repl=False` is the default used by
`save_todo_log`. -/
def serialize_todos (todos : List TodoItem) (repl : Bool) : List Char :=
  serialize_go repl 0 todos

/-- Helper for `splitLinesKeep`: `cur` is the current (unfinished) line in
reverse. -/
def splitLinesGo (cur : List Char) : List Char → List (List Char)
  | [] => if cur = [] then [] else [cur.reverse]
  | c :: rest =>
    if c = '\n' then (cur.reverse ++ ['\n']) :: splitLinesGo [] rest
    else splitLinesGo (c :: cur) rest

/-- Iterating a Python file object yields its lines with the trailing
newline kept (`for line in f`, line 257): the file content split after
each `\n`. -/
def splitLinesKeep (content : List Char) : List (List Char) :=
  splitLinesGo [] content

/-! ## Parse cache — src/todo.py lines 70-105

The Python module state `parsed_file_cache` / `cache_stats` is made an
explicit value. The dict is an insertion-ordered association list; the
claims only use lookup and the counters, never the iteration order.
`cache_fetch_or_calculate` reads `time.time()` (the `tSample` argument)
BEFORE invoking `func()`; `tDone` is the wall-clock instant at which
`func()` returns (it is not used by the code, which is the point of claim
C7) and `mtime` is what `os.stat(f)[stat.ST_MTIME]` would return. -/

structure CacheState (α : Type) where
  entries : List (String × Int × α)
  hits : Nat
  misses : Nat
  deriving Repr, DecidableEq

/-- `dict[f] = v`: replace-or-append keyed insertion. -/
def dictInsert (f : String) (v : Int × α) (entries : List (String × Int × α)) :
    List (String × Int × α) :=
  if entries.any (fun e => e.1 == f) then
    entries.map (fun e => if e.1 == f then (f, v) else e)
  else entries ++ [(f, v)]

/-- `clear_file_in_cache` (lines 72-74): `del parsed_file_cache[f]`. -/
def clear_file_in_cache (f : String) (st : CacheState α) : CacheState α :=
  { st with entries := st.entries.filter (fun e => e.1 != f) }

/-- `cache_fetch_or_calculate` (lines 78-99). The pure `result` stands for
what `func()` returns; it is consulted only on the two miss paths, where
the source calls `func()`. -/
def cache_fetch_or_calculate (f : String) (mtime tSample tDone : Int)
    (result : α) (st : CacheState α) : α × CacheState α :=
  match st.entries.lookup f with
  | none =>
    (result, { st with entries := dictInsert f (tSample, result) st.entries,
                       misses := st.misses + 1 })
  | some (lastParseTime, lastParsed) =>
    if mtime > lastParseTime then
      (result, { st with entries := dictInsert f (tSample, result) st.entries,
                         misses := st.misses + 1 })
    else
      (lastParsed, { st with hits := st.hits + 1 })

/-- `reset_file_cache` (lines 103-105): `parsed_file_cache = {}`. -/
def reset_file_cache (st : CacheState α) : CacheState α :=
  { st with entries := [] }

/-! ## Aggregator — src/todo.py lines 325-338 and 396-411 -/

/-- Python `ZeroDivisionError`. -/
inductive DivErr where
  | divByZero
  deriving Repr, DecidableEq

/-- Python `a / b` on integers: true division, error on zero denominator. -/
def pyDiv (a b : Int) : Except DivErr Rat :=
  if b = 0 then .error .divByZero else .ok ((a : Rat) / (b : Rat))

/-- `calc_percentage` (lines 325-333). `sum(todo.is_done() ...)` adds the
booleans as integers; `tasks_pct` is computed before `time_pct`, so an
empty list already fails at the first division. -/
def calc_percentage (todos : List TodoItem) : Except DivErr (Rat × Rat) := do
  let total_items : Int := todos.length
  let completed_items : Int :=
    (todos.map (fun t => if t.is_done then (1 : Int) else 0)).sum
  let total_time : Int := (todos.map (fun t => t.duration)).sum
  let completed_time : Int := (todos.map (fun t => t.time)).sum
  let tasks_pct ← pyDiv (completed_items * 100) total_items
  let time_pct ← pyDiv (completed_time * 100) total_time
  pure (tasks_pct, time_pct)

/-- `calc_time` (lines 335-338). -/
def calc_time (todos : List TodoItem) : Int × Int :=
  ((todos.map (fun t => t.time)).sum, (todos.map (fun t => t.duration)).sum)

/-- `tbl[tag] += d` after `tbl.setdefault`-style zero-initialisation: the
`if tag not in cnt_tbl` block of `gather_tags` followed by `+=`, on one
insertion-ordered dict. -/
def bumpTbl (k : List Char) (d : Int) : List (List Char × Int) → List (List Char × Int)
  | [] => [(k, d)]
  | (k2, v) :: rest =>
    if k2 = k then (k2, v + d) :: rest else (k2, v) :: bumpTbl k d rest

/-- One iteration of the `gather_tags` loop (lines 399-410). -/
def gatherStep (tbls : List (List Char × Int) × List (List Char × Int))
    (todo : TodoItem) : List (List Char × Int) × List (List Char × Int) :=
  if !todo.is_done then tbls
  else
    let tag := if todo.tag = [] then "[untagged]".toList else todo.tag
    (bumpTbl tag 1 tbls.1, bumpTbl tag todo.duration tbls.2)

/-- `gather_tags` (lines 396-411): `(cnt_tbl, time_tbl)`. -/
def gather_tags (todos : List TodoItem) :
    List (List Char × Int) × List (List Char × Int) :=
  todos.foldl gatherStep ([], [])

/-! ## Spec-side definitions used to state the claims -/

/-- The first whitespace-delimited token of a line, after
`line.strip().split()` — how `read_todo_lines` classifies a line. -/
def firstTok (line : List Char) : Option (List Char) :=
  (pyWords (pyStrip line)).head?

/-- The effective grouping key of `gather_tags`. -/
def effTag (t : TodoItem) : List Char :=
  if t.tag = [] then "[untagged]".toList else t.tag

/-- First-occurrence ordering of a list of keys: each key once, in the
order in which it first appears (the insertion order of a Python dict). -/
def firstOccurGo (seen : List (List Char)) : List (List Char) → List (List Char)
  | [] => []
  | x :: rest =>
    if x ∈ seen then firstOccurGo seen rest
    else x :: firstOccurGo (x :: seen) rest

def firstOccur (l : List (List Char)) : List (List Char) := firstOccurGo [] l

/-- Count of finished items grouped under key `g` by `gather_tags`. -/
def cntTag (g : List Char) (todos : List TodoItem) : Int :=
  ((todos.filter (fun t => t.is_done && (effTag t == g))).length : Int)

/-- Total duration of finished items grouped under key `g`. -/
def sumTag (g : List Char) (todos : List TodoItem) : Int :=
  ((todos.filter (fun t => t.is_done && (effTag t == g))).map
    (fun t => t.duration)).sum

/-- Well-formedness as claim C1 states it: name trimmed of trailing
whitespace and not containing `" ("`, non-negative duration, trimmed tag. -/
def statedWF (t : TodoItem) : Bool :=
  (pyRstrip t.name == t.name) && (!hasSeq (" (".toList) t.name) &&
    decide (0 ≤ t.duration) && (pyStrip t.tag == t.tag)

/-- Well-formedness actually sufficient for the round trip: additionally
the name is non-empty, does not begin with whitespace, and — for an
unfinished item — does not begin with `DONE`. -/
def wellFormedItem (t : TodoItem) : Bool :=
  statedWF t && !t.name.isEmpty &&
    (t.name.head?.all (fun c => !pyIsSpace c)) &&
    (t.finished || !pfx ("DONE".toList) t.name)

/-- No newline inside the fields, so that one item stays one line of the
saved file. -/
def noNewline (t : TodoItem) : Bool :=
  decide ('\n' ∉ t.name) && decide ('\n' ∉ t.tag)

/-! ## Helper lemmas: lists, prefixes, stripping -/

theorem length_dropWhile_le (p : Char → Bool) (l : List Char) :
    (l.dropWhile p).length ≤ l.length := by
  induction l with
  | nil => simp
  | cons c rest ih =>
    rw [List.dropWhile_cons]
    split
    · exact Nat.le_succ_of_le ih
    · simp

theorem pfx_append (s r : List Char) : pfx s (s ++ r) = true := by
  induction s with
  | nil => simp [pfx]
  | cons c s ih => simp [pfx, ih]

theorem skip_string_append (s r : List Char) : skip_string s (s ++ r) = .ok r := by
  induction s generalizing r with
  | nil => simp [skip_string]
  | cons c s ih => simpa [skip_string, skip_char] using ih r

theorem skip_string_fail {s l : List Char} (h : pfx s l = false) :
    ∃ e, skip_string s l = .error e := by
  induction s generalizing l with
  | nil => simp [pfx] at h
  | cons c s ih =>
    cases l with
    | nil => exact ⟨_, rfl⟩
    | cons b bs =>
      by_cases hb : b = c
      · subst hb
        simp [pfx] at h
        obtain ⟨e, he⟩ := ih h
        exact ⟨e, by simp [skip_string, skip_char, he]⟩
      · exact ⟨.expectedGot c b, by simp [skip_string, skip_char, hb]⟩

theorem pfx_done_append {nm Z : List Char}
    (h : pfx ("DONE".toList) nm = false) (hne : nm ≠ []) :
    pfx ("DONE".toList) (nm ++ ' ' :: Z) = false := by
  match nm with
  | [] => exact absurd rfl hne
  | [c1] => simp [pfx]
  | [c1, c2] => simp [pfx]
  | [c1, c2, c3] => simp [pfx]
  | c1 :: c2 :: c3 :: c4 :: r =>
    simpa [pfx] using h

theorem dropWhile_append_of_ne_nil {p : Char → Bool} {l1 : List Char}
    (l2 : List Char) (h : l1.dropWhile p ≠ []) :
    (l1 ++ l2).dropWhile p = l1.dropWhile p ++ l2 := by
  rw [List.dropWhile_append]
  simp [List.isEmpty_iff, h]

theorem dropWhile_append_all {p : Char → Bool} {l1 : List Char}
    (l2 : List Char) (h : ∀ c ∈ l1, p c = true) :
    (l1 ++ l2).dropWhile p = l2.dropWhile p := by
  rw [List.dropWhile_append]
  simp [List.isEmpty_iff, List.dropWhile_eq_nil_iff.mpr h]

theorem pyRstrip_append_ws {a ext : List Char} (h : ∀ c ∈ ext, pyIsSpace c = true) :
    pyRstrip (a ++ ext) = pyRstrip a := by
  unfold pyRstrip
  rw [List.reverse_append, dropWhile_append_all _ (by simpa using h)]

theorem pyRstrip_cons_of_nonws {c : Char} {l : List Char}
    (h : ∃ d ∈ l, pyIsSpace d = false) :
    pyRstrip (c :: l) = c :: pyRstrip l := by
  unfold pyRstrip
  have hne : l.reverse.dropWhile pyIsSpace ≠ [] := by
    intro hnil
    obtain ⟨d, hd, hdw⟩ := h
    have := List.dropWhile_eq_nil_iff.mp hnil d (by simpa using hd)
    simp [this] at hdw
  rw [show (c :: l).reverse = l.reverse ++ [c] from by simp,
      dropWhile_append_of_ne_nil _ hne]
  simp

theorem pyStrip_append_ws {a ext : List Char}
    (h : ∀ c ∈ ext, pyIsSpace c = true) :
    pyStrip (a ++ ext) = pyStrip a := by
  unfold pyStrip
  rw [pyRstrip_append_ws h]

theorem dropWhile_eq_self_of_none {p : Char → Bool} :
    ∀ {l : List Char}, (∀ c ∈ l, p c = false) → l.dropWhile p = l
  | [], _ => rfl
  | c :: rest, h => by
    rw [List.dropWhile_cons, h c (by simp)]
    simp

theorem pyStrip_of_nonws {l : List Char} (h : ∀ c ∈ l, pyIsSpace c = false) :
    pyStrip l = l := by
  have h1 : pyRstrip l = l := by
    unfold pyRstrip
    rw [dropWhile_eq_self_of_none (by intro x hx; exact h x (by simpa using hx))]
    exact List.reverse_reverse l
  unfold pyStrip pyLstrip
  rw [h1, dropWhile_eq_self_of_none h]

theorem pyRstrip_last_not_ws {l : List Char} (h : pyRstrip l = l) {c : Char}
    (hc : l.getLast? = some c) : pyIsSpace c = false := by
  have hne : l ≠ [] := by rintro rfl; simp at hc
  have hdecomp : l.dropLast ++ [l.getLast hne] = l := List.dropLast_append_getLast hne
  have hcc : l.getLast hne = c := by
    have hq := List.getLast?_eq_getLast l hne
    rw [hq] at hc
    exact Option.some.inj hc
  by_contra hw
  have hw' : pyIsSpace c = true := by revert hw; cases pyIsSpace c <;> simp
  have h2 : pyRstrip l = pyRstrip l.dropLast := by
    conv_lhs => rw [← hdecomp, hcc]
    exact pyRstrip_append_ws (by simpa using hw')
  rw [h] at h2
  have hlen : (pyRstrip l.dropLast).length ≤ l.dropLast.length := by
    unfold pyRstrip
    simpa using length_dropWhile_le pyIsSpace l.dropLast.reverse
  have hlL := congrArg List.length h2
  have hdll : l.dropLast.length < l.length := by
    cases l with
    | nil => exact absurd rfl hne
    | cons a as => simp [List.length_dropLast]
  omega

/-! ## Helper lemmas: decimal digits and Python `int` -/

theorem digitChar_isDigit {n : Nat} (h : n < 10) : (digitChar n).isDigit = true := by
  interval_cases n <;> decide

theorem digitChar_val {n : Nat} (h : n < 10) : (digitChar n).toNat - 48 = n := by
  interval_cases n <;> decide

theorem mem_natDigits_isDigit : ∀ (n : Nat), ∀ c ∈ natDigits n, c.isDigit = true := by
  intro n
  induction n using Nat.strong_induction_on with
  | _ n ih =>
    intro c hc
    rw [natDigits] at hc
    by_cases h : n < 10
    · rw [dif_pos h] at hc
      simp at hc
      subst hc
      exact digitChar_isDigit h
    · rw [dif_neg h] at hc
      rcases List.mem_append.mp hc with hc | hc
      · exact ih (n / 10) (by omega) c hc
      · simp at hc
        subst hc
        exact digitChar_isDigit (Nat.mod_lt _ (by omega))

theorem natDigits_ne_nil (n : Nat) : natDigits n ≠ [] := by
  rw [natDigits]
  by_cases h : n < 10
  · rw [dif_pos h]; simp
  · rw [dif_neg h]; simp

theorem pyDigitsAux_digit {acc : Nat} {c : Char} (h : c.isDigit = true)
    (rest : List Char) :
    pyDigitsAux acc (c :: rest) = pyDigitsAux (acc * 10 + (c.toNat - 48)) rest := by
  rw [pyDigitsAux.eq_def]
  simp [h]

theorem pyDigitsAux_append {l : List Char} (hl : ∀ c ∈ l, c.isDigit = true) :
    ∀ (acc : Nat) (l2 : List Char),
    pyDigitsAux acc (l ++ l2) =
      pyDigitsAux (l.foldl (fun a c => a * 10 + (c.toNat - 48)) acc) l2 := by
  induction l with
  | nil => intro acc l2; rfl
  | cons c rest ih =>
    intro acc l2
    rw [List.cons_append, pyDigitsAux_digit (hl c (by simp)),
      ih (fun d hd => hl d (by simp [hd])) _ l2]
    simp

theorem natDigits_foldl (n : Nat) : ∀ acc : Nat,
    (natDigits n).foldl (fun a c => a * 10 + (c.toNat - 48)) acc =
      acc * 10 ^ (natDigits n).length + n := by
  induction n using Nat.strong_induction_on with
  | _ n ih =>
    intro acc
    by_cases h : n < 10
    · rw [natDigits, dif_pos h]
      simp [digitChar_val h]
    · rw [natDigits, dif_neg h, List.foldl_append, ih (n / 10) (by omega) acc]
      have hm : (digitChar (n % 10)).toNat - 48 = n % 10 :=
        digitChar_val (Nat.mod_lt _ (by omega))
      simp only [List.foldl_cons, List.foldl_nil, hm, List.length_append,
        List.length_cons, List.length_nil]
      have hpow : 10 ^ ((natDigits (n / 10)).length + (0 + 1)) =
          10 ^ (natDigits (n / 10)).length * 10 := by
        rw [Nat.zero_add, pow_succ]
      rw [hpow]
      have hdm : n / 10 * 10 + n % 10 = n := by omega
      ring_nf
      omega

theorem pyDigitsAux_natDigits (n acc : Nat) :
    pyDigitsAux acc (natDigits n) = some (acc * 10 ^ (natDigits n).length + n) := by
  have h := pyDigitsAux_append (l := natDigits n) (mem_natDigits_isDigit n) acc []
  rw [List.append_nil] at h
  rw [h, natDigits_foldl]
  rfl

theorem pyDigits_natDigits (n : Nat) : pyDigits (natDigits n) = some n := by
  cases hd : natDigits n with
  | nil => exact absurd hd (natDigits_ne_nil n)
  | cons c rest =>
    have hc : c.isDigit = true := mem_natDigits_isDigit n c (by rw [hd]; simp)
    have h0 := pyDigitsAux_natDigits n 0
    rw [hd, pyDigitsAux_digit hc] at h0
    simp only [Nat.zero_mul, Nat.zero_add] at h0
    simp [pyDigits, hc, h0]

theorem isDigit_not_ws {c : Char} (h : c.isDigit = true) : pyIsSpace c = false := by
  cases hw : pyIsSpace c
  · rfl
  · exfalso
    unfold pyIsSpace at hw
    simp only [Bool.or_eq_true, decide_eq_true_eq] at hw
    rcases hw with ((((h1 | h1) | h1) | h1) | h1) | h1 <;>
      (subst h1; exact absurd h (by decide))

theorem pyInt_natDigits (n : Nat) : pyInt (natDigits n) = some (n : Int) := by
  have hstrip : pyStrip (natDigits n) = natDigits n :=
    pyStrip_of_nonws (fun c hc => isDigit_not_ws (mem_natDigits_isDigit n c hc))
  unfold pyInt
  rw [hstrip]
  cases hd : natDigits n with
  | nil => exact absurd hd (natDigits_ne_nil n)
  | cons c rest =>
    have hc : c.isDigit = true := mem_natDigits_isDigit n c (by rw [hd]; simp)
    have hcm : c ≠ '-' := by rintro rfl; exact absurd hc (by decide)
    have hcp : c ≠ '+' := by rintro rfl; exact absurd hc (by decide)
    split
    · next heq => exact absurd (List.cons.inj heq).1 hcm
    · next heq => exact absurd (List.cons.inj heq).1 hcp
    · rw [← hd, pyDigits_natDigits]
      rfl

theorem intRepr_nonneg {d : Int} (h : 0 ≤ d) : intRepr d = natDigits d.toNat := by
  unfold intRepr
  rw [if_neg (by omega)]

theorem pyInt_intRepr {d : Int} (h : 0 ≤ d) : pyInt (intRepr d) = some d := by
  rw [intRepr_nonneg h, pyInt_natDigits, Int.toNat_of_nonneg h]

/-! ## Helper lemmas: `splitFirst` -/

theorem pfx_cons {a b : Char} {as bs : List Char} :
    pfx (a :: as) (b :: bs) = (decide (a = b) && pfx as bs) := rfl

theorem splitFirst_single {c : Char} :
    ∀ {a : List Char}, c ∉ a → ∀ b, splitFirst [c] (a ++ c :: b) = some (a, b)
  | [], _, b => by simp [splitFirst, pfx]
  | x :: a2, h, b => by
    have hx : ¬ (c = x) := by
      intro hh
      exact h (by simp [hh])
    have ih := splitFirst_single (c := c) (a := a2) (fun hm => h (by simp [hm])) b
    have hcond : pfx [c] (x :: (a2 ++ c :: b)) = false := by
      rw [pfx_cons, decide_eq_false hx]
      rfl
    rw [List.cons_append, splitFirst, if_neg (by simp [hcond]), ih]

theorem splitFirst_space_paren :
    ∀ {a : List Char}, hasSeq (" (".toList) a = false →
    ∀ b, splitFirst (" (".toList) (a ++ ' ' :: '(' :: b) = some (a, b)
  | [], _, b => by simp [splitFirst, pfx]
  | x :: a2, h, b => by
    have hseq : hasSeq (" (".toList) a2 = false := by
      unfold hasSeq at h
      exact (Bool.or_eq_false_iff.mp h).2
    have hpfx : pfx (" (".toList) (x :: (a2 ++ ' ' :: '(' :: b)) = false := by
      cases a2 with
      | nil =>
        show pfx [' ', '('] (x :: ' ' :: '(' :: b) = false
        rw [pfx_cons, pfx_cons]
        simp
      | cons y a3 =>
        by_cases hx : x = ' '
        · subst hx
          have hy : ¬ ('(' = y) := by
            intro hh
            subst hh
            have hp : pfx (" (".toList) (' ' :: '(' :: a3) = true := by
              show pfx [' ', '('] (' ' :: '(' :: a3) = true
              rw [pfx_cons, pfx_cons]
              simp [pfx]
            have h1 := (Bool.or_eq_false_iff.mp (by unfold hasSeq at h; exact h)).1
            rw [h1] at hp
            simp at hp
          show pfx [' ', '('] (' ' :: (y :: a3 ++ ' ' :: '(' :: b)) = false
          rw [pfx_cons, List.cons_append, pfx_cons, decide_eq_false hy]
          simp
        · show pfx [' ', '('] (x :: (y :: a3 ++ ' ' :: '(' :: b)) = false
          rw [pfx_cons, decide_eq_false (fun hh => hx hh.symm)]
          simp
    have ih := splitFirst_space_paren hseq b
    rw [List.cons_append, splitFirst, if_neg (by rw [hpfx]; simp), ih]

/-! ## The round trip `parse_todo_line ∘ render` -/

theorem skip_ws_cons_nonws {c : Char} (h : pyIsSpace c = false) (l : List Char) :
    skip_whitespace (c :: l) = c :: l := by
  unfold skip_whitespace
  rw [List.dropWhile_cons, if_neg (by simp [h])]

theorem skip_ws_space (l : List Char) :
    skip_whitespace (' ' :: l) = skip_whitespace l := by
  unfold skip_whitespace
  rw [List.dropWhile_cons, if_pos (by decide)]

theorem splitFirst_paren_digits {d : Int} (hd0 : 0 ≤ d) (rest : List Char) :
    splitFirst (")".toList) ((intRepr d ++ ['m']) ++ ')' :: rest) =
      some (intRepr d ++ ['m'], rest) := by
  show splitFirst [')'] ((intRepr d ++ ['m']) ++ ')' :: rest) = _
  apply splitFirst_single
  intro hmem
  rcases List.mem_append.mp hmem with hm | hm
  · rw [intRepr_nonneg hd0] at hm
    have := mem_natDigits_isDigit _ _ hm
    exact absurd this (by decide)
  · simp at hm

theorem parse_time_digits {d : Int} (hd0 : 0 ≤ d) :
    parse_time (intRepr d ++ ['m']) = .ok d := by
  simp [parse_time, List.getLast?_concat, List.dropLast_concat, pyInt_intRepr hd0]

theorem parse_render_ext {nm tg ext : List Char} {d : Int} {fin : Bool}
    (hrs : pyRstrip nm = nm) (hseq : hasSeq (" (".toList) nm = false)
    (hd0 : 0 ≤ d) (hts : pyStrip tg = tg) (hne : nm ≠ [])
    (hhead : ∀ c l, nm = c :: l → pyIsSpace c = false)
    (hdone : fin = true ∨ pfx ("DONE".toList) nm = false)
    (hext : ∀ c ∈ ext, pyIsSpace c = true) :
    parse_todo_line ('#' :: ' ' :: (todoStr ⟨nm, d, fin, tg⟩ ++ ext)) =
      .ok ⟨nm, d, fin, tg⟩ := by
  obtain ⟨n0, nmr, rfl⟩ : ∃ c l, nm = c :: l := by
    cases nm with
    | nil => exact absurd rfl hne
    | cons a b => exact ⟨a, b, rfl⟩
  have hh : pyIsSpace n0 = false := hhead n0 nmr rfl
  have e1 : ((" (".toList : List Char)) = [' ', '('] := rfl
  have e2 : (("m) ".toList : List Char)) = ['m', ')', ' '] := rfl
  have e3 : (("DONE ".toList : List Char)) = ['D', 'O', 'N', 'E', ' '] := rfl
  have hpct : pyIsSpace '%' = false := by decide
  have hD : pyIsSpace 'D' = false := by decide
  -- the two splits over the canonical rendered shape
  have hsplit1 := splitFirst_space_paren (a := n0 :: nmr) hseq
    (intRepr d ++ 'm' :: ')' :: ' ' :: ((if tg = [] then [] else '%' :: tg) ++ ext))
  have hsplit2 := splitFirst_paren_digits hd0
    (' ' :: ((if tg = [] then [] else '%' :: tg) ++ ext))
  rw [List.append_assoc] at hsplit2
  simp only [List.cons_append, List.nil_append, List.singleton_append] at hsplit1 hsplit2
  have hnd : fin = false → pfx ("DONE".toList) (n0 :: nmr) = false := by
    intro hf
    rcases hdone with hfin | hnd2
    · rw [hf] at hfin
      exact absurd hfin (by simp)
    · exact hnd2
  cases fin with
  | false =>
    obtain ⟨er, her⟩ := skip_string_fail
      (pfx_done_append (Z := '(' ::
        (intRepr d ++ 'm' :: ')' :: ' ' ::
          ((if tg = [] then [] else '%' :: tg) ++ ext))) (hnd rfl) (by simp))
    simp only [List.cons_append] at her
    have hbody : todoStr ⟨n0 :: nmr, d, false, tg⟩ ++ ext =
        n0 :: (nmr ++ ' ' :: '(' ::
          (intRepr d ++ 'm' :: ')' :: ' ' ::
            ((if tg = [] then [] else '%' :: tg) ++ ext))) := by
      unfold todoStr
      simp only [e1, e2]
      simp [List.append_assoc]
    unfold parse_todo_line
    rw [show skip_char '#' ('#' :: ' ' :: (todoStr ⟨n0 :: nmr, d, false, tg⟩ ++ ext)) =
        .ok (' ' :: (todoStr ⟨n0 :: nmr, d, false, tg⟩ ++ ext)) from by
      simp [skip_char]]
    cases htg : tg with
    | nil =>
      have hwse : skip_whitespace ext = [] := List.dropWhile_eq_nil_iff.mpr hext
      rw [htg] at hbody her hsplit1 hsplit2
      simp only [if_pos rfl, List.nil_append] at hbody her hsplit1 hsplit2
      simp only [bind, Except.bind, hbody, skip_ws_space, skip_ws_cons_nonws hh, her,
        hsplit1, hsplit2, parse_time_digits hd0, hwse, List.length_nil, pure,
        Except.pure, hrs]
      simp [hrs, hwse, pure, Except.pure]
    | cons tc tcr =>
      rw [htg] at hbody her hsplit1 hsplit2 hts
      simp only [if_neg (by simp : ¬ (tc :: tcr = [])), List.cons_append]
        at hbody her hsplit1 hsplit2
      have hstg : pyStrip ((tc :: tcr) ++ ext) = tc :: tcr := by
        rw [pyStrip_append_ws hext, hts]
      simp only [List.cons_append] at hstg
      simp only [bind, Except.bind, hbody, skip_ws_space, skip_ws_cons_nonws hh, her,
        hsplit1, hsplit2, parse_time_digits hd0, skip_ws_cons_nonws hpct,
        List.length_cons, skip_char, pure, Except.pure, hstg, hrs]
      simp [hstg, hrs, pure, Except.pure]
  | true =>
    have hbody : todoStr ⟨n0 :: nmr, d, true, tg⟩ ++ ext =
        'D' :: 'O' :: 'N' :: 'E' :: ' ' ::
          (n0 :: (nmr ++ ' ' :: '(' ::
            (intRepr d ++ 'm' :: ')' :: ' ' ::
              ((if tg = [] then [] else '%' :: tg) ++ ext)))) := by
      unfold todoStr
      simp only [e1, e2, e3]
      simp [List.append_assoc]
    have hskipD : skip_string ("DONE".toList)
        ('D' :: 'O' :: 'N' :: 'E' :: ' ' ::
          (n0 :: (nmr ++ ' ' :: '(' ::
            (intRepr d ++ 'm' :: ')' :: ' ' ::
              ((if tg = [] then [] else '%' :: tg) ++ ext))))) =
        .ok (' ' :: (n0 :: (nmr ++ ' ' :: '(' ::
            (intRepr d ++ 'm' :: ')' :: ' ' ::
              ((if tg = [] then [] else '%' :: tg) ++ ext))))) :=
      skip_string_append ("DONE".toList) _
    unfold parse_todo_line
    rw [show skip_char '#' ('#' :: ' ' :: (todoStr ⟨n0 :: nmr, d, true, tg⟩ ++ ext)) =
        .ok (' ' :: (todoStr ⟨n0 :: nmr, d, true, tg⟩ ++ ext)) from by
      simp [skip_char]]
    cases htg : tg with
    | nil =>
      have hwse : skip_whitespace ext = [] := List.dropWhile_eq_nil_iff.mpr hext
      rw [htg] at hbody hskipD hsplit1 hsplit2
      simp only [if_pos rfl, List.nil_append] at hbody hskipD hsplit1 hsplit2
      simp only [bind, Except.bind, hbody, skip_ws_space, skip_ws_cons_nonws hh,
        skip_ws_cons_nonws hD, hskipD, hsplit1, hsplit2, parse_time_digits hd0,
        hwse, List.length_nil, pure, Except.pure, hrs]
      simp [hrs, hwse, pure, Except.pure]
    | cons tc tcr =>
      rw [htg] at hbody hskipD hsplit1 hsplit2 hts
      simp only [if_neg (by simp : ¬ (tc :: tcr = [])), List.cons_append]
        at hbody hskipD hsplit1 hsplit2
      have hstg : pyStrip ((tc :: tcr) ++ ext) = tc :: tcr := by
        rw [pyStrip_append_ws hext, hts]
      simp only [List.cons_append] at hstg
      simp only [bind, Except.bind, hbody, skip_ws_space, skip_ws_cons_nonws hh,
        skip_ws_cons_nonws hD, hskipD, hsplit1, hsplit2, parse_time_digits hd0,
        skip_ws_cons_nonws hpct, List.length_cons, skip_char, pure, Except.pure,
        hstg, hrs]
      simp [hstg, hrs, pure, Except.pure]

theorem wellFormedItem_unpack {t : TodoItem} (h : wellFormedItem t = true) :
    pyRstrip t.name = t.name ∧ hasSeq (" (".toList) t.name = false ∧
    0 ≤ t.duration ∧ pyStrip t.tag = t.tag ∧ t.name ≠ [] ∧
    (∀ c l, t.name = c :: l → pyIsSpace c = false) ∧
    (t.finished = true ∨ pfx ("DONE".toList) t.name = false) := by
  unfold wellFormedItem at h
  simp only [Bool.and_eq_true] at h
  obtain ⟨⟨⟨hsw, hA⟩, hB⟩, hC⟩ := h
  unfold statedWF at hsw
  simp only [Bool.and_eq_true] at hsw
  obtain ⟨⟨⟨h1, h2⟩, h3⟩, h4⟩ := hsw
  refine ⟨eq_of_beq h1, ?_, of_decide_eq_true h3, eq_of_beq h4, ?_, ?_, ?_⟩
  · rwa [Bool.not_eq_true'] at h2
  · intro hnil
    rw [hnil] at hA
    exact absurd hA (by simp)
  · intro c l heq
    rw [heq, List.head?_cons] at hB
    have hB2 : (!pyIsSpace c) = true := hB
    rwa [Bool.not_eq_true'] at hB2
  · rw [Bool.or_eq_true] at hC
    rcases hC with hf | hnp
    · exact Or.inl hf
    · right
      rwa [Bool.not_eq_true'] at hnp

theorem render_parse_ok {t : TodoItem} (h : wellFormedItem t = true)
    {ext : List Char} (hext : ∀ c ∈ ext, pyIsSpace c = true) :
    parse_todo_line ('#' :: ' ' :: (todoStr t ++ ext)) = .ok t := by
  obtain ⟨nm, d, fin, tg⟩ := t
  obtain ⟨hrs, hseq, hd0, hts, hne, hhead, hdone⟩ := wellFormedItem_unpack h
  exact parse_render_ext hrs hseq hd0 hts hne hhead hdone hext

/-- C1 (amended): parsing the rendered line `"# " ++ str(item)` returns the
item field-by-field for every well-formed item, where well-formedness
additionally requires (beyond the claim's trimmed-name / no-`" ("` /
non-negative-duration / trimmed-tag conditions) that the name is non-empty,
does not begin with whitespace, and — when the item is unfinished — does
not begin with `"DONE"`. -/
theorem c1_roundtrip_wellformed (t : TodoItem) (h : wellFormedItem t = true) :
    parse_todo_line ('#' :: ' ' :: todoStr t) = .ok t := by
  have hres := @render_parse_ok t h [] (by simp)
  simpa using hres

/-- C1 witness: the round trip at the concrete item
`{name := "Write report", duration := 45, finished := false, tag := "work"}`. -/
theorem c1_roundtrip_witness :
    wellFormedItem ⟨"Write report".toList, 45, false, "work".toList⟩ = true ∧
    parse_todo_line ('#' :: ' ' ::
      todoStr ⟨"Write report".toList, 45, false, "work".toList⟩) =
      .ok ⟨"Write report".toList, 45, false, "work".toList⟩ :=
  ⟨by decide, c1_roundtrip_wellformed _ (by decide)⟩

/-- C1 counterexample: the round trip fails for the claim's own notion of
well-formedness. The item with empty name, duration 5, unfinished, empty
tag satisfies the claim's conditions, but its rendered line `"#  (5m) "`
contains no `" ("` boundary after whitespace skipping, so `parse_todo_line`
raises (the `spl[1]` IndexError) instead of returning the item. -/
theorem c1_roundtrip_counterexample :
    ¬ (∀ t : TodoItem, statedWF t = true →
        parse_todo_line ('#' :: ' ' :: todoStr t) = .ok t) := by
  intro hall
  have hstr : todoStr ⟨[], 5, false, []⟩ = (" (5m) ".toList) := by
    simp [todoStr, intRepr, natDigits, digitChar]
  have h := hall ⟨[], 5, false, []⟩ (by decide)
  rw [hstr] at h
  have hp : parse_todo_line ('#' :: ' ' :: (" (5m) ".toList)) =
      .error .indexErr := by decide
  rw [hp] at h
  exact Except.noConfusion h

/-! ## Parse-cache lemmas and claims C2, C7, C9 -/

theorem lookup_map_replace {α : Type} {f : String} {v : Int × α} :
    ∀ {entries : List (String × Int × α)},
      entries.any (fun e => e.1 == f) = true →
      List.lookup f (entries.map (fun e => if e.1 == f then (f, v) else e)) =
        some v := by
  intro entries h
  induction entries with
  | nil => simp at h
  | cons e rest ih =>
    rcases e with ⟨k, w⟩
    by_cases hk : k = f
    · have hkb : (((k, w) : String × Int × α).1 == f) = true := beq_iff_eq.mpr hk
      simp only [List.map_cons, if_pos hkb]
      rw [List.lookup_cons]
      simp
    · have hkb : (((k, w) : String × Int × α).1 == f) = false :=
        beq_eq_false_iff_ne.mpr hk
      have hfk : (f == k) = false := beq_eq_false_iff_ne.mpr (Ne.symm hk)
      simp only [List.map_cons, hkb]
      rw [if_neg (by simp)]
      rw [List.lookup_cons]
      simp only [hfk]
      apply ih
      simp only [List.any_cons, hkb, Bool.false_or] at h
      exact h

theorem lookup_append_single {α : Type} {f : String} {v : Int × α} :
    ∀ {entries : List (String × Int × α)},
      entries.any (fun e => e.1 == f) = false →
      List.lookup f (entries ++ [(f, v)]) = some v := by
  intro entries h
  induction entries with
  | nil => simp [List.lookup]
  | cons e rest ih =>
    rcases e with ⟨k, w⟩
    simp only [List.any_cons, Bool.or_eq_false_iff] at h
    have h1 : (k == f) = false := h.1
    have hfk : (f == k) = false := by
      rw [beq_eq_false_iff_ne] at h1 ⊢
      exact Ne.symm h1
    simp only [List.cons_append]
    rw [List.lookup_cons]
    simp only [hfk]
    exact ih h.2

theorem lookup_dictInsert {α : Type} (f : String) (v : Int × α)
    (entries : List (String × Int × α)) :
    List.lookup f (dictInsert f v entries) = some v := by
  unfold dictInsert
  split
  · next hany => exact lookup_map_replace hany
  · next hany =>
    apply lookup_append_single
    cases hq : entries.any (fun e => e.1 == f)
    · rfl
    · exact absurd hq hany

theorem lookup_erase_self {α : Type} (f : String)
    (entries : List (String × Int × α)) :
    List.lookup f (entries.filter (fun e => e.1 != f)) = none := by
  induction entries with
  | nil => rfl
  | cons e rest ih =>
    rcases e with ⟨k, w⟩
    by_cases hk : k = f
    · have hc : (((k, w) : String × Int × α).1 != f) = false := by simp [hk]
      simpa [List.filter_cons, hc] using ih
    · have hc : (((k, w) : String × Int × α).1 != f) = true := by simp [hk]
      have hfk : (f == k) = false := beq_eq_false_iff_ne.mpr (Ne.symm hk)
      simp [List.filter_cons, hc, List.lookup_cons, hfk, ih]

theorem fetch_eq_of_none {α : Type} {f : String} {mtime tS tD : Int} {r : α}
    {st : CacheState α} (h : st.entries.lookup f = none) :
    cache_fetch_or_calculate f mtime tS tD r st =
      (r, { st with entries := dictInsert f (tS, r) st.entries,
                    misses := st.misses + 1 }) := by
  unfold cache_fetch_or_calculate
  rw [h]

theorem fetch_eq_of_stale {α : Type} {f : String} {mtime tS tD : Int} {r : α}
    {st : CacheState α} {tp : Int} {rp : α}
    (h : st.entries.lookup f = some (tp, rp)) (hgt : mtime > tp) :
    cache_fetch_or_calculate f mtime tS tD r st =
      (r, { st with entries := dictInsert f (tS, r) st.entries,
                    misses := st.misses + 1 }) := by
  unfold cache_fetch_or_calculate
  rw [h]
  show (if mtime > tp then
      (r, { st with entries := dictInsert f (tS, r) st.entries,
                    misses := st.misses + 1 })
    else (rp, { st with hits := st.hits + 1 })) = _
  rw [if_pos hgt]

theorem fetch_eq_of_hit {α : Type} {f : String} {mtime tS tD : Int} {r : α}
    {st : CacheState α} {tp : Int} {rp : α}
    (h : st.entries.lookup f = some (tp, rp)) (hle : ¬ mtime > tp) :
    cache_fetch_or_calculate f mtime tS tD r st =
      (rp, { st with hits := st.hits + 1 }) := by
  unfold cache_fetch_or_calculate
  rw [h]
  show (if mtime > tp then
      (r, { st with entries := dictInsert f (tS, r) st.entries,
                    misses := st.misses + 1 })
    else (rp, { st with hits := st.hits + 1 })) = _
  rw [if_neg hle]

/-- C2: for every file id, a fetch with no entry is a miss (it returns the
freshly computed value, stores it with the sample timestamp, and bumps
`misses` leaving `hits` alone); with an entry present it is a hit exactly
when the file's mtime is not strictly greater than the recorded timestamp
(returning the stored value, bumping `hits`, leaving entries untouched),
and a miss (recompute, restore, bump `misses`) when it is strictly
greater; after `clear_file_in_cache` the next fetch for that file is
always a miss. -/
theorem c2_cache_correct {α : Type} (f : String) (mtime tS tD : Int) (r : α)
    (st : CacheState α) :
    (st.entries.lookup f = none →
      (cache_fetch_or_calculate f mtime tS tD r st).1 = r ∧
      (cache_fetch_or_calculate f mtime tS tD r st).2.misses = st.misses + 1 ∧
      (cache_fetch_or_calculate f mtime tS tD r st).2.hits = st.hits ∧
      (cache_fetch_or_calculate f mtime tS tD r st).2.entries.lookup f =
        some (tS, r)) ∧
    (∀ tp rp, st.entries.lookup f = some (tp, rp) →
      (¬ mtime > tp →
        (cache_fetch_or_calculate f mtime tS tD r st).1 = rp ∧
        (cache_fetch_or_calculate f mtime tS tD r st).2.hits = st.hits + 1 ∧
        (cache_fetch_or_calculate f mtime tS tD r st).2.misses = st.misses ∧
        (cache_fetch_or_calculate f mtime tS tD r st).2.entries = st.entries) ∧
      (mtime > tp →
        (cache_fetch_or_calculate f mtime tS tD r st).1 = r ∧
        (cache_fetch_or_calculate f mtime tS tD r st).2.misses = st.misses + 1 ∧
        (cache_fetch_or_calculate f mtime tS tD r st).2.entries.lookup f =
          some (tS, r))) ∧
    ((cache_fetch_or_calculate f mtime tS tD r (clear_file_in_cache f st)).1 = r ∧
      (cache_fetch_or_calculate f mtime tS tD r (clear_file_in_cache f st)).2.misses
        = (clear_file_in_cache f st).misses + 1) := by
  refine ⟨?_, ?_, ?_⟩
  · intro hnone
    rw [fetch_eq_of_none hnone]
    exact ⟨rfl, rfl, rfl, lookup_dictInsert f (tS, r) st.entries⟩
  · intro tp rp hsome
    constructor
    · intro hle
      rw [fetch_eq_of_hit hsome hle]
      exact ⟨rfl, rfl, rfl, rfl⟩
    · intro hgt
      rw [fetch_eq_of_stale hsome hgt]
      exact ⟨rfl, rfl, lookup_dictInsert f (tS, r) st.entries⟩
  · have hn : (clear_file_in_cache f st).entries.lookup f = none :=
      lookup_erase_self f st.entries
    rw [fetch_eq_of_none hn]
    exact ⟨rfl, rfl⟩

/-- C7 (amended): on both miss paths the stored timestamp is `tS`, the
`time.time()` reading taken on line 80 (resp. 90) immediately BEFORE
`func()` is invoked on line 81 (resp. 91); with a monotone wall clock it
is therefore at most — not at least — the completion time `tD` of the
wrapped compute. -/
theorem c7_timestamp_is_presample {α : Type} (f : String) (mtime tS tD : Int)
    (r : α) (st : CacheState α) (hclock : tS ≤ tD) :
    (st.entries.lookup f = none →
      (cache_fetch_or_calculate f mtime tS tD r st).2.entries.lookup f =
        some (tS, r) ∧ tS ≤ tD) ∧
    (∀ tp rp, st.entries.lookup f = some (tp, rp) → mtime > tp →
      (cache_fetch_or_calculate f mtime tS tD r st).2.entries.lookup f =
        some (tS, r) ∧ tS ≤ tD) := by
  constructor
  · intro hnone
    rw [fetch_eq_of_none hnone]
    exact ⟨lookup_dictInsert f (tS, r) st.entries, hclock⟩
  · intro tp rp hsome hgt
    rw [fetch_eq_of_stale hsome hgt]
    exact ⟨lookup_dictInsert f (tS, r) st.entries, hclock⟩

/-- C7 witness: a concrete miss with sample time 3 and completion time 7
stores timestamp 3. -/
theorem c7_timestamp_witness :
    (cache_fetch_or_calculate "f" 0 3 7 ([] : List TodoItem)
        ⟨[], 0, 0⟩).2.entries.lookup "f" = some (3, []) ∧ (3 : Int) ≤ 7 :=
  (c7_timestamp_is_presample "f" 0 3 7 ([] : List TodoItem) ⟨[], 0, 0⟩
    (by decide)).1 (by decide)

/-- C7 counterexample: sampled clock 0, compute completes at time 1 (any
instant not before the sample); the stored timestamp is the pre-compute
sample 0, which is strictly earlier than the completion time 1 — so the
stored timestamp is NOT "a time not earlier than the completion of the
wrapped compute() call". -/
theorem c7_timestamp_counterexample :
    (cache_fetch_or_calculate "a" 0 0 1 ([] : List TodoItem)
        ⟨[], 0, 0⟩).2.entries.lookup "a" = some (0, []) ∧ ¬ ((0 : Int) ≥ 1) := by
  constructor
  · decide
  · decide

/-- C9: `reset_file_cache` removes every entry — so any subsequent fetch is
a miss: it returns the fresh result and increments `misses` — and leaves
both counters unchanged; `clear_file_in_cache` also leaves both counters
unchanged, so among the cache operations only `cache_fetch_or_calculate`
modifies them. -/
theorem c9_reset_frame {α : Type} (st : CacheState α) :
    (reset_file_cache st).hits = st.hits ∧
    (reset_file_cache st).misses = st.misses ∧
    (reset_file_cache st).entries = [] ∧
    (∀ (f : String) (mtime tS tD : Int) (r : α),
      (cache_fetch_or_calculate f mtime tS tD r (reset_file_cache st)).1 = r ∧
      (cache_fetch_or_calculate f mtime tS tD r (reset_file_cache st)).2.misses =
        st.misses + 1 ∧
      (cache_fetch_or_calculate f mtime tS tD r (reset_file_cache st)).2.hits =
        st.hits) ∧
    (∀ f : String, (clear_file_in_cache f st).hits = st.hits ∧
      (clear_file_in_cache f st).misses = st.misses) := by
  refine ⟨rfl, rfl, rfl, ?_, fun f => ⟨rfl, rfl⟩⟩
  intro f mtime tS tD r
  have hn : (reset_file_cache st).entries.lookup f = none := rfl
  rw [fetch_eq_of_none hn]
  exact ⟨rfl, rfl, rfl⟩

/-! ## Aggregator claim C3 -/

/-- C3: `calc_percentage` hits the division-by-zero error path on every
empty list (the task-percentage division) and on every non-empty list of
total duration zero (the time-percentage division), and returns both
percentages without error on every non-empty list of positive total
duration. -/
theorem c3_zero_denominator (todos : List TodoItem) :
    (todos = [] → calc_percentage todos = .error .divByZero) ∧
    (todos ≠ [] → (todos.map (fun t => t.duration)).sum = 0 →
      calc_percentage todos = .error .divByZero) ∧
    (todos ≠ [] → 0 < (todos.map (fun t => t.duration)).sum →
      ∃ p q, calc_percentage todos = .ok (p, q)) := by
  refine ⟨?_, ?_, ?_⟩
  · rintro rfl
    decide
  · intro hne hsum
    have hlen : ¬ ((todos.length : Int) = 0) := by
      intro h0
      have : todos.length = 0 := by exact_mod_cast h0
      exact hne (List.length_eq_zero.mp this)
    unfold calc_percentage
    rw [hsum]
    simp [pyDiv, hlen, bind, Except.bind]
  · intro hne hpos
    have hlen : ¬ ((todos.length : Int) = 0) := by
      intro h0
      have : todos.length = 0 := by exact_mod_cast h0
      exact hne (List.length_eq_zero.mp this)
    have hsum : ¬ ((todos.map (fun t => t.duration)).sum = 0) := by omega
    rcases hc : calc_percentage todos with e | pq
    · exfalso
      unfold calc_percentage at hc
      simp [pyDiv, hlen, hsum, bind, Except.bind, pure, Except.pure] at hc
    · rcases pq with ⟨p, q⟩
      exact ⟨p, q, rfl⟩

/-! ## Log-parser claims C4 and C10 -/

theorem firstTok_cons {l : List Char} {w : List Char}
    (h : firstTok l = some w) : ∃ tl, pyWords (pyStrip l) = w :: tl := by
  unfold firstTok at h
  cases hq : pyWords (pyStrip l) with
  | nil =>
    rw [hq] at h
    exact absurd h (by simp)
  | cons a tl =>
    rw [hq] at h
    simp only [List.head?_cons, Option.some.injEq] at h
    exact ⟨tl, by rw [h]⟩

theorem read_todo_go_cons (flag : Bool) (line : List Char)
    (rest : List (List Char)) :
    read_todo_go flag (line :: rest) =
      match pyWords (pyStrip line) with
      | [] => read_todo_go flag rest
      | tok :: _ =>
        if tok = "###".toList then read_todo_go (!flag) rest
        else if flag then read_todo_go flag rest
        else if tok = "#".toList then
          match parse_todo_line line with
          | .error e => .error e
          | .ok item =>
            match read_todo_go flag rest with
            | .error e => .error e
            | .ok items => .ok (item :: items)
        else read_todo_go flag rest := rfl

/-- C10: a line that begins with whitespace but whose first
whitespace-delimited token is exactly `#` is classified as an item line
yet handed to `parse_todo_line` UNSTRIPPED, so the parse fails immediately
with "Expected '#' but got <the leading whitespace character>", and the
failure propagates out of `read_todo_lines` instead of the item being
parsed or the line being skipped. -/
theorem c10_indented_item_line (c : Char) (l : List Char)
    (rest : List (List Char)) (hws : pyIsSpace c = true)
    (htok : firstTok (c :: l) = some ("#".toList)) :
    parse_todo_line (c :: l) = .error (.expectedGot '#' c) ∧
    read_todo_lines ((c :: l) :: rest) = .error (.expectedGot '#' c) := by
  have hcn : ¬ (c = '#') := by
    intro hh
    subst hh
    exact absurd hws (by decide)
  have hp : parse_todo_line (c :: l) = .error (.expectedGot '#' c) := by
    unfold parse_todo_line
    rw [show skip_char '#' (c :: l) = .error (.expectedGot '#' c) from by
      simp [skip_char, hcn]]
    rfl
  refine ⟨hp, ?_⟩
  obtain ⟨tl, hw⟩ := firstTok_cons htok
  have e4 : (("#".toList : List Char)) = ['#'] := rfl
  have e5 : (("###".toList : List Char)) = ['#', '#', '#'] := rfl
  unfold read_todo_lines
  rw [read_todo_go_cons, hw]
  simp [e4, e5, hp]

/-- C10 witness: the concrete line `"  # task (5m)"` (two leading spaces)
fails the whole-file parse with expected `#`, got `' '`. -/
theorem c10_indented_item_witness :
    pyIsSpace ' ' = true ∧
    firstTok (' ' :: (" # task (5m)".toList)) = some ("#".toList) ∧
    read_todo_lines [(' ' :: (" # task (5m)".toList))] =
      .error (.expectedGot '#' ' ') :=
  ⟨by decide, by decide,
    (c10_indented_item_line ' ' (" # task (5m)".toList) [] (by decide)
      (by decide)).2⟩

/-- C4: the log parser's block-comment discipline: (1) the spec's example
file parses to exactly one item `Real (2m)`; a line whose first token is
`###` (2) toggles the flag whatever the flag's value and whatever else is
on the line; while the flag is true every other line is skipped (3), so an
unterminated block comment swallows the whole remainder, yielding exactly
the items accumulated so far (4); with the flag false, a first token `#`
parses the line as an item and appends it (5), and any other line is
skipped (6); the flag starts false (7). -/
theorem c4_block_comments :
    (read_todo_lines ["### ".toList, "# ignored (1m)".toList, "###".toList,
        "# Real (2m)".toList] = .ok [⟨"Real".toList, 2, false, []⟩]) ∧
    (∀ (l : List Char) (rest : List (List Char)) (flag : Bool),
      firstTok l = some ("###".toList) →
      read_todo_go flag (l :: rest) = read_todo_go (!flag) rest) ∧
    (∀ (l : List Char) (rest : List (List Char)),
      firstTok l ≠ some ("###".toList) →
      read_todo_go true (l :: rest) = read_todo_go true rest) ∧
    (∀ lines : List (List Char),
      (∀ l ∈ lines, firstTok l ≠ some ("###".toList)) →
      read_todo_go true lines = .ok []) ∧
    (∀ (l : List Char) (rest : List (List Char)),
      firstTok l = some ("#".toList) →
      read_todo_go false (l :: rest) =
        (match parse_todo_line l with
        | .error e => .error e
        | .ok item =>
          match read_todo_go false rest with
          | .error e => .error e
          | .ok items => .ok (item :: items))) ∧
    (∀ (l : List Char) (rest : List (List Char)),
      firstTok l ≠ some ("#".toList) → firstTok l ≠ some ("###".toList) →
      read_todo_go false (l :: rest) = read_todo_go false rest) ∧
    (∀ lines, read_todo_lines lines = read_todo_go false lines) := by
  have e4 : (("#".toList : List Char)) = ['#'] := rfl
  have e5 : (("###".toList : List Char)) = ['#', '#', '#'] := rfl
  have hb : ∀ (l : List Char) (rest : List (List Char)) (flag : Bool),
      firstTok l = some ("###".toList) →
      read_todo_go flag (l :: rest) = read_todo_go (!flag) rest := by
    intro l rest flag htok
    obtain ⟨tl, hw⟩ := firstTok_cons htok
    rw [read_todo_go_cons, hw]
    simp
  have hc : ∀ (l : List Char) (rest : List (List Char)),
      firstTok l ≠ some ("###".toList) →
      read_todo_go true (l :: rest) = read_todo_go true rest := by
    intro l rest htok
    rw [read_todo_go_cons]
    cases hq : pyWords (pyStrip l) with
    | nil => rfl
    | cons w tl =>
      have hwne : ¬ (w = "###".toList) := by
        intro hh
        apply htok
        unfold firstTok
        rw [hq, hh]
        rfl
      rw [e5] at hwne
      simp [hwne]
  have hd : ∀ lines : List (List Char),
      (∀ l ∈ lines, firstTok l ≠ some ("###".toList)) →
      read_todo_go true lines = .ok [] := by
    intro lines hall
    induction lines with
    | nil => rfl
    | cons l rest ih =>
      rw [hc l rest (hall l (by simp))]
      exact ih (fun x hx => hall x (by simp [hx]))
  have he : ∀ (l : List Char) (rest : List (List Char)),
      firstTok l = some ("#".toList) →
      read_todo_go false (l :: rest) =
        (match parse_todo_line l with
        | .error e => .error e
        | .ok item =>
          match read_todo_go false rest with
          | .error e => .error e
          | .ok items => .ok (item :: items)) := by
    intro l rest htok
    obtain ⟨tl, hw⟩ := firstTok_cons htok
    rw [read_todo_go_cons, hw]
    simp [e4, e5]
  have hf : ∀ (l : List Char) (rest : List (List Char)),
      firstTok l ≠ some ("#".toList) → firstTok l ≠ some ("###".toList) →
      read_todo_go false (l :: rest) = read_todo_go false rest := by
    intro l rest htok1 htok2
    rw [read_todo_go_cons]
    cases hq : pyWords (pyStrip l) with
    | nil => rfl
    | cons w tl =>
      have hw3 : ¬ (w = "###".toList) := by
        intro hh
        apply htok2
        unfold firstTok
        rw [hq, hh]
        rfl
      have hw1 : ¬ (w = "#".toList) := by
        intro hh
        apply htok1
        unfold firstTok
        rw [hq, hh]
        rfl
      rw [e5] at hw3
      rw [e4] at hw1
      simp [hw3, hw1]
  exact ⟨by decide, hb, hc, hd, he, hf, fun lines => rfl⟩

/-- C4 witness: the toggle at a concrete `### trailing text` line, flag
false. -/
theorem c4_block_comments_witness :
    firstTok ("### anything".toList) = some ("###".toList) ∧
    read_todo_go false (("### anything".toList) :: [("# x (1m)".toList)]) =
      read_todo_go true [("# x (1m)".toList)] :=
  ⟨by decide, (c4_block_comments).2.1 ("### anything".toList)
    [("# x (1m)".toList)] false (by decide)⟩

/-! ## Tag-aggregation claim C5 -/

theorem lookup_bumpTbl_self (k : List Char) (d : Int) :
    ∀ tbl : List (List Char × Int),
      List.lookup k (bumpTbl k d tbl) =
        some (((List.lookup k tbl).getD 0) + d) := by
  intro tbl
  induction tbl with
  | nil => simp [bumpTbl, List.lookup]
  | cons e rest ih =>
    rcases e with ⟨k2, v⟩
    by_cases hk : k2 = k
    · subst hk
      simp [bumpTbl, List.lookup]
    · have hkk : (k == k2) = false := beq_eq_false_iff_ne.mpr (Ne.symm hk)
      simp only [bumpTbl, if_neg hk]
      rw [List.lookup_cons, List.lookup_cons]
      simp only [hkk]
      exact ih

theorem lookup_bumpTbl_ne {g k : List Char} (hne : g ≠ k) (d : Int) :
    ∀ tbl : List (List Char × Int),
      List.lookup g (bumpTbl k d tbl) = List.lookup g tbl := by
  intro tbl
  induction tbl with
  | nil =>
    have hgk : (g == k) = false := beq_eq_false_iff_ne.mpr hne
    simp [bumpTbl, List.lookup, hgk]
  | cons e rest ih =>
    rcases e with ⟨k2, v⟩
    by_cases hk : k2 = k
    · subst hk
      have hgk : (g == k2) = false := beq_eq_false_iff_ne.mpr hne
      have hbv : bumpTbl k2 d ((k2, v) :: rest) = (k2, v + d) :: rest := by
        simp [bumpTbl]
      rw [hbv, List.lookup_cons, List.lookup_cons]
      simp only [hgk]
    · simp only [bumpTbl, if_neg hk]
      rw [List.lookup_cons, List.lookup_cons]
      cases hgk : (g == k2)
      · exact ih
      · rfl

theorem keys_bumpTbl (k : List Char) (d : Int) :
    ∀ tbl : List (List Char × Int),
      (bumpTbl k d tbl).map Prod.fst =
        if k ∈ tbl.map Prod.fst then tbl.map Prod.fst
        else tbl.map Prod.fst ++ [k] := by
  intro tbl
  induction tbl with
  | nil => simp [bumpTbl]
  | cons e rest ih =>
    rcases e with ⟨k2, v⟩
    by_cases hk : k2 = k
    · subst hk
      simp [bumpTbl]
    · simp only [bumpTbl, if_neg hk, List.map_cons]
      rw [ih]
      by_cases hmem : k ∈ rest.map Prod.fst
      · rw [if_pos hmem, if_pos (by simp [hmem])]
      · rw [if_neg hmem, if_neg (by
          simp only [List.mem_cons]
          rintro (hh | hh)
          · exact hk hh.symm
          · exact hmem hh)]
        rfl

theorem firstOccurGo_cons (u : List (List Char)) (x : List Char)
    (l : List (List Char)) :
    firstOccurGo u (x :: l) =
      (if x ∈ u then firstOccurGo u l else x :: firstOccurGo (x :: u) l) := rfl

theorem firstOccurGo_congr : ∀ {l : List (List Char)} {a b : List (List Char)},
    (∀ x, x ∈ a ↔ x ∈ b) → firstOccurGo a l = firstOccurGo b l := by
  intro l
  induction l with
  | nil => intro a b h; rfl
  | cons x rest ih =>
    intro a b h
    unfold firstOccurGo
    by_cases hx : x ∈ a
    · rw [if_pos hx, if_pos ((h x).mp hx)]
      exact ih h
    · rw [if_neg hx, if_neg (fun hc => hx ((h x).mpr hc))]
      have hstep := ih (a := x :: a) (b := x :: b) (fun y => by
        simp only [List.mem_cons, h y])
      rw [hstep]

theorem gatherStep_skip {tbls : List (List Char × Int) × List (List Char × Int)}
    {t : TodoItem} (h : t.is_done = false) : gatherStep tbls t = tbls := by
  simp [gatherStep, h]

theorem gatherStep_keep {tbls : List (List Char × Int) × List (List Char × Int)}
    {t : TodoItem} (h : t.is_done = true) :
    gatherStep tbls t =
      (bumpTbl (effTag t) 1 tbls.1, bumpTbl (effTag t) t.duration tbls.2) := by
  simp [gatherStep, h, effTag]

theorem gather_go_filter (todos : List TodoItem) :
    ∀ tbls, List.foldl gatherStep tbls (todos.filter (fun t => t.is_done)) =
      List.foldl gatherStep tbls todos := by
  induction todos with
  | nil => intro tbls; rfl
  | cons t rest ih =>
    intro tbls
    cases hdone : t.is_done
    · rw [List.filter_cons, if_neg (by simp [hdone])]
      rw [List.foldl_cons, gatherStep_skip hdone]
      exact ih tbls
    · rw [List.filter_cons, if_pos (by simp [hdone])]
      rw [List.foldl_cons, List.foldl_cons]
      exact ih (gatherStep tbls t)

theorem gather_keys_go (todos : List TodoItem) :
    ∀ tbls : List (List Char × Int) × List (List Char × Int),
      ((List.foldl gatherStep tbls todos).1.map Prod.fst =
        tbls.1.map Prod.fst ++
          firstOccurGo (tbls.1.map Prod.fst)
            ((todos.filter (fun t => t.is_done)).map effTag)) ∧
      ((List.foldl gatherStep tbls todos).2.map Prod.fst =
        tbls.2.map Prod.fst ++
          firstOccurGo (tbls.2.map Prod.fst)
            ((todos.filter (fun t => t.is_done)).map effTag)) := by
  induction todos with
  | nil => intro tbls; simp [firstOccurGo]
  | cons t rest ih =>
    intro tbls
    cases hdone : t.is_done
    · rw [List.filter_cons, if_neg (by simp [hdone])]
      rw [List.foldl_cons, gatherStep_skip hdone]
      exact ih tbls
    · rw [List.filter_cons, if_pos (by simp [hdone])]
      rw [List.foldl_cons, gatherStep_keep hdone, List.map_cons]
      obtain ⟨hr1, hr2⟩ := ih (bumpTbl (effTag t) 1 tbls.1,
        bumpTbl (effTag t) t.duration tbls.2)
      have hr1c : (List.foldl gatherStep (bumpTbl (effTag t) 1 tbls.1,
          bumpTbl (effTag t) t.duration tbls.2) rest).1.map Prod.fst =
          (bumpTbl (effTag t) 1 tbls.1).map Prod.fst ++
            firstOccurGo ((bumpTbl (effTag t) 1 tbls.1).map Prod.fst)
              ((rest.filter (fun x => x.is_done)).map effTag) := hr1
      have hr2c : (List.foldl gatherStep (bumpTbl (effTag t) 1 tbls.1,
          bumpTbl (effTag t) t.duration tbls.2) rest).2.map Prod.fst =
          (bumpTbl (effTag t) t.duration tbls.2).map Prod.fst ++
            firstOccurGo ((bumpTbl (effTag t) t.duration tbls.2).map Prod.fst)
              ((rest.filter (fun x => x.is_done)).map effTag) := hr2
      constructor
      · rw [hr1c, keys_bumpTbl, firstOccurGo_cons]
        by_cases hmem : effTag t ∈ tbls.1.map Prod.fst
        · rw [if_pos hmem, if_pos hmem]
        · rw [if_neg hmem, if_neg hmem,
            firstOccurGo_congr (b := effTag t :: tbls.1.map Prod.fst) (fun y => by
              simp only [List.mem_append, List.mem_cons, List.mem_singleton,
                List.not_mem_nil, or_false]
              exact or_comm)]
          simp
      · rw [hr2c, keys_bumpTbl, firstOccurGo_cons]
        by_cases hmem : effTag t ∈ tbls.2.map Prod.fst
        · rw [if_pos hmem, if_pos hmem]
        · rw [if_neg hmem, if_neg hmem,
            firstOccurGo_congr (b := effTag t :: tbls.2.map Prod.fst) (fun y => by
              simp only [List.mem_append, List.mem_cons, List.mem_singleton,
                List.not_mem_nil, or_false]
              exact or_comm)]
          simp

theorem cntTag_cons_skip {g : List Char} {t : TodoItem}
    (h : (t.is_done && (effTag t == g)) = false) (rest : List TodoItem) :
    cntTag g (t :: rest) = cntTag g rest := by
  simp [cntTag, List.filter_cons, h]

theorem cntTag_cons_keep {g : List Char} {t : TodoItem}
    (h : (t.is_done && (effTag t == g)) = true) (rest : List TodoItem) :
    cntTag g (t :: rest) = cntTag g rest + 1 := by
  unfold cntTag
  rw [List.filter_cons, if_pos h, List.length_cons]
  push_cast
  ring

theorem sumTag_cons_skip {g : List Char} {t : TodoItem}
    (h : (t.is_done && (effTag t == g)) = false) (rest : List TodoItem) :
    sumTag g (t :: rest) = sumTag g rest := by
  simp [sumTag, List.filter_cons, h]

theorem sumTag_cons_keep {g : List Char} {t : TodoItem}
    (h : (t.is_done && (effTag t == g)) = true) (rest : List TodoItem) :
    sumTag g (t :: rest) = t.duration + sumTag g rest := by
  simp [sumTag, List.filter_cons, h]

theorem cntTag_nonneg (g : List Char) (todos : List TodoItem) :
    0 ≤ cntTag g todos := by
  unfold cntTag
  positivity

theorem gather_lookup_go (g : List Char) (todos : List TodoItem) :
    ∀ tbls : List (List Char × Int) × List (List Char × Int),
      ((List.lookup g tbls.1 = none →
        List.lookup g (List.foldl gatherStep tbls todos).1 =
          (if cntTag g todos = 0 then none else some (cntTag g todos))) ∧
       (∀ v, List.lookup g tbls.1 = some v →
        List.lookup g (List.foldl gatherStep tbls todos).1 =
          some (v + cntTag g todos))) ∧
      ((List.lookup g tbls.2 = none →
        List.lookup g (List.foldl gatherStep tbls todos).2 =
          (if cntTag g todos = 0 then none else some (sumTag g todos))) ∧
       (∀ v, List.lookup g tbls.2 = some v →
        List.lookup g (List.foldl gatherStep tbls todos).2 =
          some (v + sumTag g todos))) := by
  have hc0 : cntTag g [] = 0 := by simp [cntTag]
  have hs0 : sumTag g [] = 0 := by simp [sumTag]
  induction todos with
  | nil =>
    intro tbls
    refine ⟨⟨?_, ?_⟩, ?_, ?_⟩
    · intro h
      rw [List.foldl_nil, h, hc0, if_pos rfl]
    · intro v h
      rw [List.foldl_nil, h, hc0, add_zero]
    · intro h
      rw [List.foldl_nil, h, hc0, if_pos rfl]
    · intro v h
      rw [List.foldl_nil, h, hs0, add_zero]
  | cons t rest ih =>
    intro tbls
    cases hdone : t.is_done
    · have hsk : (t.is_done && (effTag t == g)) = false := by simp [hdone]
      rw [List.foldl_cons, gatherStep_skip hdone,
        cntTag_cons_skip hsk, sumTag_cons_skip hsk]
      exact ih tbls
    · rw [List.foldl_cons, gatherStep_keep hdone]
      by_cases hg : effTag t = g
      · have hkp : (t.is_done && (effTag t == g)) = true := by
          simp [hdone, hg]
        rw [cntTag_cons_keep hkp, sumTag_cons_keep hkp, hg]
        have hrec := ih (bumpTbl g 1 tbls.1, bumpTbl g t.duration tbls.2)
        have hb1 : List.lookup g (bumpTbl g 1 tbls.1) =
            some ((List.lookup g tbls.1).getD 0 + 1) := lookup_bumpTbl_self g 1 tbls.1
        have hb2 : List.lookup g (bumpTbl g t.duration tbls.2) =
            some ((List.lookup g tbls.2).getD 0 + t.duration) :=
          lookup_bumpTbl_self g t.duration tbls.2
        have hr1 := hrec.1.2 ((List.lookup g tbls.1).getD 0 + 1) hb1
        have hr2 := hrec.2.2 ((List.lookup g tbls.2).getD 0 + t.duration) hb2
        have hnn := cntTag_nonneg g rest
        refine ⟨⟨?_, ?_⟩, ?_, ?_⟩
        · intro h
          rw [hr1, h]
          rw [if_neg (by omega)]
          simp only [Option.getD_none]
          congr 1
          ring
        · intro v h
          rw [hr1, h]
          simp only [Option.getD_some]
          congr 1
          ring
        · intro h
          rw [hr2, h]
          rw [if_neg (by omega)]
          simp only [Option.getD_none]
          congr 1
          ring
        · intro v h
          rw [hr2, h]
          simp only [Option.getD_some]
          congr 1
          ring
      · have hgb : (effTag t == g) = false := beq_eq_false_iff_ne.mpr hg
        have hsk : (t.is_done && (effTag t == g)) = false := by simp [hgb]
        rw [cntTag_cons_skip hsk, sumTag_cons_skip hsk]
        have hrec := ih (bumpTbl (effTag t) 1 tbls.1,
          bumpTbl (effTag t) t.duration tbls.2)
        have hb1 := lookup_bumpTbl_ne (Ne.symm hg) 1 tbls.1
        have hb2 := lookup_bumpTbl_ne (Ne.symm hg) t.duration tbls.2
        refine ⟨⟨?_, ?_⟩, ?_, ?_⟩
        · intro h
          exact hrec.1.1 (by rw [show List.lookup g
            (bumpTbl (effTag t) 1 tbls.1, bumpTbl (effTag t) t.duration tbls.2).1 =
            List.lookup g tbls.1 from hb1, h])
        · intro v h
          exact hrec.1.2 v (by rw [show List.lookup g
            (bumpTbl (effTag t) 1 tbls.1, bumpTbl (effTag t) t.duration tbls.2).1 =
            List.lookup g tbls.1 from hb1, h])
        · intro h
          exact hrec.2.1 (by rw [show List.lookup g
            (bumpTbl (effTag t) 1 tbls.1, bumpTbl (effTag t) t.duration tbls.2).2 =
            List.lookup g tbls.2 from hb2, h])
        · intro v h
          exact hrec.2.2 v (by rw [show List.lookup g
            (bumpTbl (effTag t) 1 tbls.1, bumpTbl (effTag t) t.duration tbls.2).2 =
            List.lookup g tbls.2 from hb2, h])

/-- C5: `gather_tags` counts and sums durations only over finished items
(it is invariant under filtering to the finished ones); empty tags are
grouped under the sentinel `"[untagged]"`; both tables' key order is the
insertion order of each effective tag's first occurrence among the
finished items; a key is present exactly when its finished-item count is
non-zero, and then maps to that count resp. that duration sum; and the
spec's three-item example yields counts `{[untagged]:1, x:1}` and minutes
`{[untagged]:10, x:5}` (C excluded, unfinished). -/
theorem c5_tag_stats :
    (gather_tags [⟨"A".toList, 10, true, []⟩, ⟨"B".toList, 5, true, "x".toList⟩,
        ⟨"C".toList, 7, false, "x".toList⟩] =
      ([("[untagged]".toList, 1), ("x".toList, 1)],
       [("[untagged]".toList, 10), ("x".toList, 5)])) ∧
    (∀ todos, gather_tags todos =
      gather_tags (todos.filter (fun t => t.is_done))) ∧
    (∀ todos, (gather_tags todos).1.map Prod.fst =
        firstOccur ((todos.filter (fun t => t.is_done)).map effTag) ∧
      (gather_tags todos).2.map Prod.fst =
        firstOccur ((todos.filter (fun t => t.is_done)).map effTag)) ∧
    (∀ todos (g : List Char),
      List.lookup g (gather_tags todos).1 =
        (if cntTag g todos = 0 then none else some (cntTag g todos)) ∧
      List.lookup g (gather_tags todos).2 =
        (if cntTag g todos = 0 then none else some (sumTag g todos))) := by
  refine ⟨by decide, ?_, ?_, ?_⟩
  · intro todos
    unfold gather_tags
    exact (gather_go_filter todos ([], [])).symm
  · intro todos
    have h := gather_keys_go todos ([], [])
    unfold gather_tags firstOccur
    constructor
    · have h1 := h.1
      simpa using h1
    · have h2 := h.2
      simpa using h2
  · intro todos g
    have h := gather_lookup_go g todos ([], [])
    unfold gather_tags
    exact ⟨h.1.1 rfl, h.2.1 rfl⟩

/-! ## Duration-sign claim C8 -/

theorem mem_skip_char {c x : Char} {l m : List Char}
    (h : skip_char c l = .ok m) (hx : x ∈ m) : x ∈ l := by
  cases l with
  | nil => exact absurd h (by simp [skip_char])
  | cons y rest =>
    simp only [skip_char] at h
    by_cases hy : y = c
    · rw [if_pos hy] at h
      injection h with h2
      subst h2
      exact List.mem_cons_of_mem y hx
    · rw [if_neg hy] at h
      exact absurd h (by simp)

theorem mem_skip_string {s : List Char} :
    ∀ {l m : List Char}, skip_string s l = .ok m → ∀ x ∈ m, x ∈ l := by
  induction s with
  | nil =>
    intro l m h x hx
    unfold skip_string at h
    injection h with h2
    subst h2
    exact hx
  | cons c s2 ih =>
    intro l m h x hx
    unfold skip_string at h
    cases hsc : skip_char c l with
    | error e =>
      rw [hsc] at h
      exact absurd h (by simp)
    | ok l2 =>
      rw [hsc] at h
      exact mem_skip_char hsc (ih h x hx)

theorem mem_dropWhile {p : Char → Bool} {x : Char} :
    ∀ {l : List Char}, x ∈ l.dropWhile p → x ∈ l := by
  intro l
  induction l with
  | nil => intro hx; simpa using hx
  | cons c rest ih =>
    intro hx
    rw [List.dropWhile_cons] at hx
    split at hx
    · exact List.mem_cons_of_mem c (ih hx)
    · exact hx

theorem mem_skip_whitespace {x : Char} {l : List Char}
    (hx : x ∈ skip_whitespace l) : x ∈ l := by
  unfold skip_whitespace at hx
  exact mem_dropWhile hx

theorem mem_pyStrip {x : Char} {l : List Char} (hx : x ∈ pyStrip l) : x ∈ l := by
  unfold pyStrip pyLstrip pyRstrip at hx
  have h1 := mem_dropWhile hx
  have h2 : x ∈ l.reverse.dropWhile pyIsSpace := by simpa using h1
  have h3 := mem_dropWhile h2
  simpa using h3

theorem mem_splitFirst {sep : List Char} :
    ∀ {l a b : List Char}, splitFirst sep l = some (a, b) →
      (∀ x ∈ a, x ∈ l) ∧ (∀ x ∈ b, x ∈ l) := by
  intro l
  induction l with
  | nil =>
    intro a b h
    exact absurd h (by simp [splitFirst])
  | cons c rest ih =>
    intro a b h
    unfold splitFirst at h
    split at h
    · injection h with h2
      rw [Prod.ext_iff] at h2
      obtain ⟨ha, hb⟩ := h2
      subst ha
      subst hb
      constructor
      · intro x hx
        simp at hx
      · intro x hx
        exact List.mem_of_mem_drop hx
    · split at h
      · next a2 b2 heq =>
        injection h with h2
        rw [Prod.ext_iff] at h2
        obtain ⟨ha, hb⟩ := h2
        subst ha
        subst hb
        obtain ⟨hfst, hsnd⟩ := ih heq
        constructor
        · intro x hx
          rcases List.mem_cons.mp hx with hx1 | hx2
          · rw [hx1]
            exact List.mem_cons_self _ _
          · exact List.mem_cons_of_mem c (hfst x hx2)
        · intro x hx
          exact List.mem_cons_of_mem c (hsnd x hx)
      · exact absurd h (by simp)

theorem pyInt_nonneg {s : List Char} {n : Int} (h : pyInt s = some n)
    (hm : '-' ∉ s) : 0 ≤ n := by
  unfold pyInt at h
  split at h
  · next heq =>
    exfalso
    apply hm
    apply mem_pyStrip
    rw [heq]
    simp
  · obtain ⟨k, hk, rfl⟩ := Option.map_eq_some'.mp h
    exact Int.natCast_nonneg k
  · obtain ⟨k, hk, rfl⟩ := Option.map_eq_some'.mp h
    exact Int.natCast_nonneg k

theorem pyInt_of_parse_time {ts : List Char} {n : Int}
    (h : parse_time ts = .ok n) : pyInt ts.dropLast = some n := by
  unfold parse_time at h
  split at h
  · exact absurd h (by simp)
  · split at h
    · split at h
      · next hpy =>
        injection h with h2
        rw [← h2]
        exact hpy
      · exact absurd h (by simp)
    · exact absurd h (by simp)

theorem parse_tail_nonneg {lx : List Char} {done : Bool} {t : TodoItem}
    (hok : (match splitFirst (" (".toList) (skip_whitespace lx) with
      | none => Except.error ParseErr.indexErr
      | some (rawName, line5) =>
        match splitFirst (")".toList) line5 with
        | none => Except.error ParseErr.indexErr
        | some (timeStr, line6) =>
          Except.bind (parse_time timeStr) (fun dur =>
            if (skip_whitespace line6).length > 0 then
              Except.bind (skip_char '%' (skip_whitespace line6)) (fun l8 =>
                pure { name := pyRstrip rawName, duration := dur,
                       finished := done, tag := pyStrip l8 })
            else
              pure { name := pyRstrip rawName, duration := dur,
                     finished := done, tag := [] })) = Except.ok t)
    (hm : '-' ∉ lx) : 0 ≤ t.duration := by
  split at hok
  · exact absurd hok (by simp)
  · next rawName line5 hsp1 =>
    split at hok
    · exact absurd hok (by simp)
    · next timeStr line6 hsp2 =>
      cases hpt : parse_time timeStr with
      | error e =>
        rw [hpt] at hok
        exact absurd hok (by simp [Except.bind])
      | ok dur =>
        rw [hpt] at hok
        simp only [Except.bind] at hok
        have hmem : '-' ∉ timeStr := by
          intro hx
          apply hm
          apply mem_skip_whitespace
          exact (mem_splitFirst hsp1).2 '-' ((mem_splitFirst hsp2).1 '-' hx)
        have hnn : 0 ≤ dur := pyInt_nonneg (pyInt_of_parse_time hpt)
          (fun hx => hmem (List.mem_of_mem_dropLast hx))
        split at hok
        · cases hsk : skip_char '%' (skip_whitespace line6) with
          | error e =>
            rw [hsk] at hok
            exact absurd hok (by simp [Except.bind])
          | ok l8 =>
            rw [hsk] at hok
            simp only [Except.bind, pure, Except.pure] at hok
            injection hok with h2
            rw [← h2]
            exact hnn
        · simp only [pure, Except.pure] at hok
          injection hok with h2
          rw [← h2]
          exact hnn

theorem parse_duration_nonneg {l : List Char} {t : TodoItem}
    (hok : parse_todo_line l = .ok t) (hm : '-' ∉ l) : 0 ≤ t.duration := by
  unfold parse_todo_line at hok
  cases h1 : skip_char '#' l with
  | error e =>
    rw [h1] at hok
    exact absurd hok (by simp [bind, Except.bind])
  | ok l1 =>
    rw [h1] at hok
    simp only [bind, Except.bind] at hok
    have hm1 : '-' ∉ l1 := fun hx => hm (mem_skip_char h1 hx)
    cases h2 : skip_string ("DONE".toList) (skip_whitespace l1) with
    | ok l3 =>
      rw [h2] at hok
      have hm3 : '-' ∉ l3 := fun hx =>
        hm1 (mem_skip_whitespace (mem_skip_string h2 _ hx))
      exact parse_tail_nonneg hok hm3
    | error e =>
      rw [h2] at hok
      have hm3 : '-' ∉ skip_whitespace l1 := fun hx =>
        hm1 (mem_skip_whitespace hx)
      exact parse_tail_nonneg hok hm3

/-- C8 (amended): every line `parse_todo_line` accepts yields an integer
duration, and that duration is non-negative whenever the line contains no
`-` character (Python `int()` accepts an optional sign, so a duration
written `-3m` parses to a negative integer); a duration string whose text
does not end in `m` is a hard `parse_time` failure (empty text raises
IndexError, otherwise the `assert` fires). -/
theorem c8_duration_nonneg_no_minus :
    (∀ (l : List Char) (t : TodoItem),
      parse_todo_line l = .ok t → '-' ∉ l → 0 ≤ t.duration) ∧
    (∀ ts : List Char, ts.getLast? ≠ some 'm' →
      ∃ e, parse_time ts = .error e) := by
  constructor
  · intro l t hok hm
    exact parse_duration_nonneg hok hm
  · intro ts hlast
    cases hg : ts.getLast? with
    | none =>
      refine ⟨.indexErr, ?_⟩
      unfold parse_time
      rw [hg]
    | some c =>
      have hc : ¬ (c = 'm') := by
        intro hh
        rw [hh] at hg
        exact hlast hg
      refine ⟨.timeSuffix, ?_⟩
      unfold parse_time
      rw [hg]
      show (if c = 'm' then _ else Except.error ParseErr.timeSuffix) = _
      rw [if_neg hc]

/-- C8 counterexample: the line `"# task (-3m)"` is accepted by
`parse_todo_line` with duration `-3`, a negative integer, refuting "for
every accepted line the duration is non-negative". -/
theorem c8_negative_duration_counterexample :
    parse_todo_line ("# task (-3m)".toList) =
      .ok ⟨"task".toList, -3, false, []⟩ ∧ ((-3 : Int) < 0) :=
  ⟨by decide, by decide⟩

/-! ## Idempotent-save claim C6 -/

theorem serialize_false_eq : ∀ (idx : Nat) (todos : List TodoItem),
    serialize_go false idx todos =
      (todos.map (fun t => ((("# ".toList) ++ todoStr t) ++ ['\n']))).join := by
  intro idx todos
  induction todos generalizing idx with
  | nil => rfl
  | cons t rest ih =>
    simp only [serialize_go, List.map_cons, List.join]
    rw [ih (idx + 1)]
    simp [List.append_assoc]

theorem splitLinesGo_append {b : List Char} (hnl : '\n' ∉ b) :
    ∀ (cur rest : List Char),
      splitLinesGo cur (b ++ '\n' :: rest) =
        ((cur.reverse ++ b) ++ ['\n']) :: splitLinesGo [] rest := by
  induction b with
  | nil =>
    intro cur rest
    simp [splitLinesGo]
  | cons c b2 ih =>
    intro cur rest
    have hc : ¬ (c = '\n') := by
      intro hh
      exact hnl (by simp [hh])
    rw [List.cons_append]
    show (if c = '\n' then _ else splitLinesGo (c :: cur) (b2 ++ '\n' :: rest)) = _
    rw [if_neg hc, ih (fun hx => hnl (by simp [hx])) (c :: cur) rest]
    simp [List.append_assoc]

theorem splitLines_join : ∀ {bodies : List (List Char)},
    (∀ b ∈ bodies, '\n' ∉ b) →
    splitLinesKeep ((bodies.map (fun b => b ++ ['\n'])).join) =
      bodies.map (fun b => b ++ ['\n']) := by
  intro bodies
  induction bodies with
  | nil => intro h; rfl
  | cons b rest ih =>
    intro h
    unfold splitLinesKeep
    simp only [List.map_cons, List.join, List.flatten_cons, List.append_assoc,
      List.singleton_append]
    rw [splitLinesGo_append (h b (by simp)) [] _]
    simp only [List.reverse_nil, List.nil_append]
    have := ih (fun x hx => h x (by simp [hx]))
    unfold splitLinesKeep at this
    simp only [List.join] at this
    rw [this]

theorem newline_not_mem_intRepr (d : Int) : '\n' ∉ intRepr d := by
  unfold intRepr
  split
  · intro hmem
    rcases List.mem_cons.mp hmem with h1 | h1
    · exact absurd h1 (by decide)
    · exact absurd (mem_natDigits_isDigit _ _ h1) (by decide)
  · intro hmem
    exact absurd (mem_natDigits_isDigit _ _ hmem) (by decide)

theorem no_newline_line {t : TodoItem} (h : noNewline t = true) :
    '\n' ∉ (("# ".toList) ++ todoStr t) := by
  unfold noNewline at h
  simp only [Bool.and_eq_true] at h
  have hn : '\n' ∉ t.name := of_decide_eq_true h.1
  have ht : '\n' ∉ t.tag := of_decide_eq_true h.2
  have hdig := newline_not_mem_intRepr t.duration
  intro hmem
  rcases List.mem_append.mp hmem with hm | hm
  · exact absurd hm (by decide)
  · by_cases hf : t.finished = true <;> by_cases htg : t.tag = [] <;>
      simp [todoStr, hf, htg, List.mem_append, hn, ht, hdig] at hm

theorem paren_mem_todoStr (t : TodoItem) : '(' ∈ todoStr t := by
  by_cases hf : t.finished = true <;> by_cases ht : t.tag = [] <;>
    simp [todoStr, hf, ht]

theorem pyWordsGo_hash (m : List Char) :
    pyWordsGo none ('#' :: ' ' :: m) = ['#'] :: pyWordsGo none m := rfl

theorem firstTok_rendered (t : TodoItem) :
    pyWords (pyStrip ('#' :: ' ' :: (todoStr t ++ ['\n']))) =
      ['#'] :: pyWords (pyRstrip (todoStr t ++ ['\n'])) := by
  have hpar : ∃ d ∈ todoStr t ++ ['\n'], pyIsSpace d = false :=
    ⟨'(', by simp [paren_mem_todoStr t], by decide⟩
  have hr1 : pyRstrip (' ' :: (todoStr t ++ ['\n'])) =
      ' ' :: pyRstrip (todoStr t ++ ['\n']) := pyRstrip_cons_of_nonws hpar
  have hr2 : pyRstrip ('#' :: ' ' :: (todoStr t ++ ['\n'])) =
      '#' :: ' ' :: pyRstrip (todoStr t ++ ['\n']) := by
    have hpar2 : ∃ d ∈ ' ' :: (todoStr t ++ ['\n']), pyIsSpace d = false :=
      ⟨'(', by simp [paren_mem_todoStr t], by decide⟩
    rw [pyRstrip_cons_of_nonws hpar2, hr1]
  show pyWordsGo none (pyLstrip (pyRstrip ('#' :: ' ' :: (todoStr t ++ ['\n'])))) = _
  rw [hr2]
  rw [show pyLstrip ('#' :: ' ' :: pyRstrip (todoStr t ++ ['\n'])) =
      '#' :: ' ' :: pyRstrip (todoStr t ++ ['\n']) from by
    unfold pyLstrip
    rw [List.dropWhile_cons, if_neg (by decide)]]
  exact pyWordsGo_hash _

theorem read_rendered_lines : ∀ (todos : List TodoItem),
    (∀ t ∈ todos, wellFormedItem t = true ∧ noNewline t = true) →
    read_todo_go false
        (todos.map (fun t => ((("# ".toList) ++ todoStr t) ++ ['\n']))) =
      .ok todos := by
  intro todos h
  induction todos with
  | nil => rfl
  | cons t rest ih =>
    obtain ⟨hwf, hnl⟩ := h t (by simp)
    have hline : ((("# ".toList) ++ todoStr t) ++ ['\n']) =
        '#' :: ' ' :: (todoStr t ++ ['\n']) := by simp
    have hparse : parse_todo_line ('#' :: ' ' :: (todoStr t ++ ['\n'])) = .ok t :=
      render_parse_ok hwf (by
        intro c hc
        simp only [List.mem_singleton] at hc
        rw [hc]
        rfl)
    have hrest := ih (fun x hx => h x (by simp [hx]))
    have hrest2 : read_todo_go false
        (List.map (fun t => '#' :: ' ' :: (todoStr t ++ ['\n'])) rest) =
        .ok rest := by
      have hmeq : List.map (fun t => '#' :: ' ' :: (todoStr t ++ ['\n'])) rest =
          List.map (fun t => ((("# ".toList) ++ todoStr t) ++ ['\n'])) rest := by
        simp
      rw [hmeq]
      exact hrest
    simp only [List.map_cons]
    rw [read_todo_go_cons, hline, firstTok_rendered]
    simp [hparse, hrest2]

/-- C6 (amended): for every list of well-formed items (C1's amended
well-formedness, plus no newline inside name or tag), the saved file
content is one `"# "`-prefixed line per item in order with no display
index, re-reading that content parses back exactly the same items, and
saving the re-read list reproduces the file content byte for byte. -/
theorem c6_idempotent_save (todos : List TodoItem)
    (h : ∀ t ∈ todos, wellFormedItem t = true ∧ noNewline t = true) :
    serialize_todos todos false =
      (todos.map (fun t => ((("# ".toList) ++ todoStr t) ++ ['\n']))).join ∧
    read_todo_lines (splitLinesKeep (serialize_todos todos false)) = .ok todos ∧
    (match read_todo_lines (splitLinesKeep (serialize_todos todos false)) with
     | .ok again => some (serialize_todos again false)
     | .error _ => none) = some (serialize_todos todos false) := by
  have hser : serialize_todos todos false =
      (todos.map (fun t => ((("# ".toList) ++ todoStr t) ++ ['\n']))).join :=
    serialize_false_eq 0 todos
  have hmm : (todos.map (fun t => ("# ".toList) ++ todoStr t)).map
      (fun b => b ++ ['\n']) =
      todos.map (fun t => ((("# ".toList) ++ todoStr t) ++ ['\n'])) := by
    rw [List.map_map]
    rfl
  have hsplit : splitLinesKeep (serialize_todos todos false) =
      todos.map (fun t => ((("# ".toList) ++ todoStr t) ++ ['\n'])) := by
    rw [hser, ← hmm]
    rw [splitLines_join (by
      intro b hb
      simp only [List.mem_map] at hb
      obtain ⟨t, hmem, rfl⟩ := hb
      exact no_newline_line (h t hmem).2)]
  have hread : read_todo_lines (splitLinesKeep (serialize_todos todos false)) =
      .ok todos := by
    rw [hsplit]
    exact read_rendered_lines todos h
  refine ⟨hser, hread, ?_⟩
  rw [hread]

/-- C6 witness: the two-item list `[Write report (45m) %work,
DONE Read book (30m)]` saves, re-reads to the same items, and re-saves
identically. -/
theorem c6_idempotent_save_witness :
    (∀ t ∈ [(⟨"Write report".toList, 45, false, "work".toList⟩ : TodoItem),
        ⟨"Read book".toList, 30, true, []⟩],
      wellFormedItem t = true ∧ noNewline t = true) ∧
    read_todo_lines (splitLinesKeep (serialize_todos
        [⟨"Write report".toList, 45, false, "work".toList⟩,
         ⟨"Read book".toList, 30, true, []⟩] false)) =
      .ok [⟨"Write report".toList, 45, false, "work".toList⟩,
           ⟨"Read book".toList, 30, true, []⟩] :=
  ⟨by decide, (c6_idempotent_save
    [⟨"Write report".toList, 45, false, "work".toList⟩,
     ⟨"Read book".toList, 30, true, []⟩] (by decide)).2.1⟩

/-- C6 counterexample: for the (not well-formed, but perfectly
constructible) single-item list with name `"x "` — trailing space — the
first save writes `"# x  (5m) \n"`, resolving re-parses it to the item
named `"x"`, and the second save writes `"# x (5m) \n"`: the two file
contents differ, refuting "for every item list". -/
theorem c6_idempotent_save_counterexample :
    read_todo_lines (splitLinesKeep (serialize_todos
        [⟨"x ".toList, 5, false, []⟩] false)) =
      .ok [⟨"x".toList, 5, false, []⟩] ∧
    serialize_todos [⟨"x".toList, 5, false, []⟩] false ≠
      serialize_todos [⟨"x ".toList, 5, false, []⟩] false := by
  have h5 : natDigits 5 = ['5'] := by
    rw [natDigits, dif_pos (by norm_num)]
    rfl
  have hserA : serialize_todos [⟨"x ".toList, 5, false, []⟩] false =
      ("# x  (5m) \n".toList) := by
    simp [serialize_todos, serialize_go, todoStr, intRepr, h5]
  have hserB : serialize_todos [⟨"x".toList, 5, false, []⟩] false =
      ("# x (5m) \n".toList) := by
    simp [serialize_todos, serialize_go, todoStr, intRepr, h5]
  constructor
  · rw [hserA]
    decide
  · rw [hserA, hserB]
    decide

end TodoTracker
